import Mathlib

/-!
Verification of the cross-run deduplication and incremental-delivery core of
the CF-Worker-RSS workers (`src/ffxiv-tw-news-api.js`, `src/unnamed/part_000`,
`src/ffxiv-tw-news-monitor.js`).

The JavaScript is shallowly embedded: tracked items are records whose fields
carry the types the pipeline actually stores (strings, string-or-null,
finite-number-or-null, booleans); a JS value that is `null`, `undefined` or
`NaN` where a string or number is expected is represented by `none`.  The
host built-ins `Date.parse` and `Date.prototype.toISOString` are passed in as
explicit function parameters (`dp : String → Option Int`, returning `none`
for an unparseable date, and `iso`; the state loader's `iso` is
`Int → Option String`, `none` standing for the RangeError the host call
throws on out-of-range timestamps).  JS `Map` objects are
association lists in insertion order with distinct keys; `Map.prototype.set`
on a present key overwrites in place, otherwise appends.  The dynamic JSON
values handled by the state loader are embedded by an explicit `Json` type.
-/

set_option maxHeartbeats 1000000

namespace CFRSS

/-- JS truthiness of a string: `""` is falsy, every other string truthy. -/
def strTruthy (s : String) : Bool := s ≠ ""

/-- JS truthiness of a string-or-null/undefined field. -/
def ostrTruthy : Option String → Bool
  | none => false
  | some s => strTruthy s

/-- JS truthiness of a finite-number-or-null/NaN field (`0` and `NaN` are
falsy, `NaN`/`null` are both embedded as `none`). -/
def ointTruthy : Option Int → Bool
  | none => false
  | some t => t ≠ 0

/-- A tracked article as stored in a daily bucket and passed around
`mergeArticles` / `markPreviouslySentArticles` / the delivery loop of
`processRSS`.  Field types follow the TrackedItem data model produced by the
pipeline (`parseRSSItems`, `loadDailyState`, `mergeArticles`). -/
@[ext]
structure Article where
  link : String
  title : String
  description : String
  thumbnail : Option String
  guid : Option String
  publishedAt : Option String
  publishedAtMs : Option Int
  sent : Bool
  sentAt : Option String
deriving Repr, DecidableEq

/-- JS `a || b` on string-or-null values. -/
def jsOrStr (a b : Option String) : Option String := if ostrTruthy a then a else b

/-- UTF-16 code units of a string, as produced by JS `charCodeAt` (astral
code points are split into surrogate pairs). -/
def utf16Units (s : String) : List Nat :=
  s.data.foldr
    (fun c acc =>
      let n := c.toNat
      if n < 0x10000 then n :: acc
      else (0xD800 + (n - 0x10000) / 0x400) :: (0xDC00 + (n - 0x10000) % 0x400) :: acc)
    []

/-- One step of the FNV-1a loop of `hashIdentifier`: `hash ^= c;
hash = Math.imul(hash, 0x01000193); hash >>>= 0;` on an unsigned 32-bit
accumulator. -/
def fnvStep (h c : Nat) : Nat := ((h ^^^ c) * 0x01000193) % 4294967296

/-- The 32-bit FNV-1a accumulator of `hashIdentifier` before hex
formatting. -/
def hashNat (s : String) : Nat := (utf16Units s).foldl fnvStep 0x811c9dc5

/-- JS `String.prototype.padStart(8, '0')`. -/
def padStart8 (s : String) : String :=
  if s.length < 8 then String.mk (List.replicate (8 - s.length) '0') ++ s else s

/-- `hashIdentifier` (src/ffxiv-tw-news-api.js:984): FNV-1a over the UTF-16
code units, formatted as 8 lowercase hex digits. -/
def hashIdentifier (input : String) : String :=
  padStart8 (String.mk (Nat.toDigits 16 (hashNat input)))

/-- JS `String.prototype.trim`: strip leading and trailing whitespace
(embedded over the character list; the JS and Lean whitespace classes agree
on the ASCII whitespace this feed data contains). -/
def jsTrim (s : String) : String :=
  String.mk (((s.data.dropWhile Char.isWhitespace).reverse.dropWhile
    Char.isWhitespace).reverse)

/-- `getArticleIdentity` (src/ffxiv-tw-news-api.js:975): trimmed `guid` when
it is a non-blank string, else trimmed `link` when non-blank, else null. -/
def getArticleIdentity (a : Article) : Option String :=
  match a.guid with
  | some g =>
    if strTruthy g && strTruthy (jsTrim g) then some (jsTrim g)
    else if strTruthy a.link && strTruthy (jsTrim a.link) then some (jsTrim a.link)
    else none
  | none =>
    if strTruthy a.link && strTruthy (jsTrim a.link) then some (jsTrim a.link)
    else none

/-- A sent-ledger entry (`{sentAt, identity}`). -/
structure SentEntry where
  sentAt : String
  identity : Option String
deriving Repr, DecidableEq

/-- The sent ledger: a JS `Map` from hashed identity to entry, embedded as
an insertion-ordered association list with distinct keys. -/
abbrev SentMap := List (String × SentEntry)

/-- JS `Map.prototype.get`: the value of the (unique) entry with the key. -/
def mapGet {β : Type} : List (String × β) → String → Option β
  | [], _ => none
  | p :: rest, k => if p.1 = k then some p.2 else mapGet rest k

/-- JS `Map.prototype.set`: overwrite the entry in place when the key is
present, append otherwise. -/
def mapSet {β : Type} : List (String × β) → String → β → List (String × β)
  | [], k, v => [(k, v)]
  | p :: rest, k, v => if p.1 = k then (k, v) :: rest else p :: mapSet rest k v

/-- `setSentEntry` (src/ffxiv-tw-news-api.js:996).  `now` stands for
`new Date().toISOString()`. -/
def setSentEntry (now : String) (m : SentMap) (a : Article) : SentMap × Bool :=
  match getArticleIdentity a with
  | none => (m, false)
  | some id =>
    let h := hashIdentifier id
    let sentAt := match a.sentAt with
      | some s => s
      | none => now
    match mapGet m h with
    | some prev =>
      if prev.sentAt == sentAt then (m, false)
      else (mapSet m h ⟨sentAt, some id⟩, true)
    | none => (mapSet m h ⟨sentAt, some id⟩, true)

/-- One article of the `markPreviouslySentArticles` loop body
(src/ffxiv-tw-news-api.js:1239): an unsent article whose identity hash is in
the ledger is marked sent, copying `sentAt` from the entry when the article
has no truthy `sentAt` and the entry's is truthy.  Returns the updated
article and whether it was newly marked. -/
def markOne (m : SentMap) (a : Article) : Article × Bool :=
  if a.sent then (a, false)
  else
    match getArticleIdentity a with
    | none => (a, false)
    | some id =>
      match mapGet m (hashIdentifier id) with
      | none => (a, false)
      | some entry =>
        ({ a with
            sent := true
            sentAt :=
              if !ostrTruthy a.sentAt && strTruthy entry.sentAt then some entry.sentAt
              else a.sentAt },
          true)

/-- `markPreviouslySentArticles` (src/ffxiv-tw-news-api.js:1239): marks every
unsent article remembered by the ledger, returning the updated list and
whether anything was newly marked. -/
def markPreviouslySentArticles (articles : List Article) (m : SentMap) :
    List Article × Bool :=
  match articles with
  | [] => ([], false)
  | a :: rest =>
    let p := markOne m a
    let r := markPreviouslySentArticles rest m
    (p.1 :: r.1, p.2 || r.2)

/-- The normalization `mergeArticles` applies to every existing article when
seeding its map (src/ffxiv-tw-news-api.js:1161-1173): coerce `sent` to
boolean, `sentAt` to string-or-null via `|| null`, keep string `guid`s,
recompute `publishedAtMs` from `publishedAt` (JS `Date.parse`, `none` for
`NaN`) when not finite, and recompute `publishedAt` from the original
`publishedAtMs` when falsy. -/
def normalizeArticle (dp : String → Option Int) (iso : Int → String) (a : Article) :
    Article :=
  { a with
    sentAt := jsOrStr a.sentAt none
    publishedAtMs :=
      match a.publishedAtMs with
      | some t => some t
      | none =>
        match a.publishedAt with
        | some s => if strTruthy s then dp s else none
        | none => none
    publishedAt :=
      jsOrStr a.publishedAt
        (match a.publishedAtMs with
         | some t => if t ≠ 0 then some (iso t) else none
         | none => none) }

/-- The new-article branch of `mergeArticles`
(src/ffxiv-tw-news-api.js:1214-1224): insert the candidate with `sent=false`,
`sentAt=null` and `guid: item.guid || null`. -/
def insertArticle (item : Article) : Article :=
  { link := item.link
    title := item.title
    description := item.description
    thumbnail := item.thumbnail
    guid := jsOrStr item.guid none
    publishedAt := item.publishedAt
    publishedAtMs := item.publishedAtMs
    sent := false
    sentAt := none }

/-- The `updated` flag of the existing-article branch of `mergeArticles`
(src/ffxiv-tw-news-api.js:1178-1208): true iff some truthy candidate field
among title/description/thumbnail/guid/publishedAt differs from the stored
value. -/
def articleUpdated (existing item : Article) : Bool :=
  (strTruthy item.title && (item.title != existing.title)) ||
  (strTruthy item.description && (item.description != existing.description)) ||
  (ostrTruthy item.thumbnail && (item.thumbnail != existing.thumbnail)) ||
  (ostrTruthy item.guid && (item.guid != existing.guid)) ||
  (ostrTruthy item.publishedAt && (item.publishedAt != existing.publishedAt))

/-- The field rewrite of the existing-article branch of `mergeArticles`:
each truthy differing candidate field replaces the stored one; `publishedAt`
updates carry `publishedAtMs` along; `sent`/`sentAt` are untouched. -/
def updateArticle (existing item : Article) : Article :=
  { existing with
    title :=
      if strTruthy item.title && (item.title != existing.title) then item.title
      else existing.title
    description :=
      if strTruthy item.description && (item.description != existing.description) then
        item.description
      else existing.description
    thumbnail :=
      if ostrTruthy item.thumbnail && (item.thumbnail != existing.thumbnail) then
        item.thumbnail
      else existing.thumbnail
    guid :=
      if ostrTruthy item.guid && (item.guid != existing.guid) then item.guid
      else existing.guid
    publishedAt :=
      if ostrTruthy item.publishedAt && (item.publishedAt != existing.publishedAt) then
        item.publishedAt
      else existing.publishedAt
    publishedAtMs :=
      if ostrTruthy item.publishedAt && (item.publishedAt != existing.publishedAt) then
        item.publishedAtMs
      else existing.publishedAtMs }

/-- The loop of phase 1 of `mergeArticles` over the remaining existing
articles, carrying the map built so far. -/
def mergeSeedLoop (dp : String → Option Int) (iso : Int → String) :
    List (String × Article) → List Article → List (String × Article)
  | m, [] => m
  | m, a :: rest =>
    mergeSeedLoop dp iso
      (if strTruthy a.link then mapSet m a.link (normalizeArticle dp iso a) else m)
      rest

/-- Phase 1 of `mergeArticles`: seed the map from the existing articles,
skipping falsy links, keyed by `link`, values normalized. -/
def mergeSeed (dp : String → Option Int) (iso : Int → String)
    (existingArticles : List Article) : List (String × Article) :=
  mergeSeedLoop dp iso [] existingArticles

/-- One candidate of phase 2 of `mergeArticles`: skip falsy links; update a
present entry when some field materially differs; insert an absent one.
Returns the map and whether this step changed anything. -/
def mergeStep (m : List (String × Article)) (item : Article) :
    List (String × Article) × Bool :=
  if strTruthy item.link then
    match mapGet m item.link with
    | some existing =>
      if articleUpdated existing item then
        (mapSet m item.link (updateArticle existing item), true)
      else (m, false)
    | none => (mapSet m item.link (insertArticle item), true)
  else (m, false)

/-- Phase 2 of `mergeArticles`: fold the candidates over the seeded map,
accumulating the `hasChanges` flag. -/
def mergeFold : List (String × Article) → List Article → List (String × Article) × Bool
  | m, [] => (m, false)
  | m, item :: rest =>
    let q := mergeStep m item
    let r := mergeFold q.1 rest
    (r.1, q.2 || r.2)

/-- The sort key of the output comparator of `mergeArticles`
(src/ffxiv-tw-news-api.js:1228-1235): `publishedAtMs` when finite, else
`+Infinity` (missing timestamps sort last). -/
def articleTime (a : Article) : WithTop Int :=
  match a.publishedAtMs with
  | some t => (t : WithTop Int)
  | none => ⊤

/-- The output order of `mergeArticles`: ascending `publishedAtMs` (missing
last), ties broken by ascending `link` (JS `localeCompare` embedded as
lexicographic string order). -/
def mergeLE (a b : Article) : Prop :=
  articleTime a < articleTime b ∨ (articleTime a = articleTime b ∧ a.link ≤ b.link)

instance : DecidableRel mergeLE := fun _ _ =>
  inferInstanceAs (Decidable (_ ∨ _))

/-- `mergeArticles` (src/ffxiv-tw-news-api.js:1156): seed from the existing
articles, fold in the candidates, and return the map's values sorted by the
output comparator along with the `hasChanges` flag.  The JS `Array.sort` is
stable and the comparator total, embedded as a stable insertion sort. -/
def mergeArticles (dp : String → Option Int) (iso : Int → String)
    (existingArticles newItems : List Article) : List Article × Bool :=
  let p := mergeFold (mergeSeed dp iso existingArticles) newItems
  (List.insertionSort mergeLE (p.1.map (·.2)), p.2)

/-- The invariant of the merge map: keys are distinct, every stored
article's `link` equals its key, and keys are truthy (non-empty). -/
def MapInv (m : List (String × Article)) : Prop :=
  (m.map Prod.fst).Nodup ∧ ∀ p ∈ m, p.2.link = p.1 ∧ p.1 ≠ ""

/-- How a merged article `w` may differ from the seeded (normalized
existing) article `v` it descends from: `link`, `sent` and `sentAt` are
unchanged, and each of the five updatable fields either kept the stored
value or took a truthy, materially differing value from some candidate with
the same link (`publishedAt` carrying `publishedAtMs` along). -/
def mergeFieldRel (items : List Article) (v w : Article) : Prop :=
  w.link = v.link
  ∧ w.sent = v.sent
  ∧ w.sentAt = v.sentAt
  ∧ (w.title = v.title ∨ ∃ i ∈ items, i.link = w.link ∧ strTruthy i.title = true ∧
      i.title ≠ v.title ∧ w.title = i.title)
  ∧ (w.description = v.description ∨ ∃ i ∈ items, i.link = w.link ∧
      strTruthy i.description = true ∧ i.description ≠ v.description ∧
      w.description = i.description)
  ∧ (w.thumbnail = v.thumbnail ∨ ∃ i ∈ items, i.link = w.link ∧
      ostrTruthy i.thumbnail = true ∧ i.thumbnail ≠ v.thumbnail ∧
      w.thumbnail = i.thumbnail)
  ∧ (w.guid = v.guid ∨ ∃ i ∈ items, i.link = w.link ∧ ostrTruthy i.guid = true ∧
      i.guid ≠ v.guid ∧ w.guid = i.guid)
  ∧ (w.publishedAt = v.publishedAt ∨ ∃ i ∈ items, i.link = w.link ∧
      ostrTruthy i.publishedAt = true ∧ i.publishedAt ≠ v.publishedAt ∧
      w.publishedAt = i.publishedAt)
  ∧ (w.publishedAtMs = v.publishedAtMs ∨ ∃ i ∈ items, i.link = w.link ∧
      ostrTruthy i.publishedAt = true ∧ w.publishedAtMs = i.publishedAtMs)

/-- `MAX_SENT_MAP_SIZE` (src/ffxiv-tw-news-api.js:392). -/
def MAX_SENT_MAP_SIZE : Nat := 500

/-- The sort key used by the capacity pruning of `pruneSentMap`:
`Date.parse(entry.sentAt)`, defined on entries that survived the validity
sweep (for which the parse is finite). -/
def pruneKeyOf (dp : String → Option Int) (p : String × SentEntry) : Int :=
  (dp p.2.sentAt).getD 0

/-- Ascending-`sentAt` order of the capacity pruning sort. -/
def pruneLE (dp : String → Option Int) (p q : String × SentEntry) : Prop :=
  pruneKeyOf dp p ≤ pruneKeyOf dp q

instance (dp : String → Option Int) : DecidableRel (pruneLE dp) := fun _ _ =>
  inferInstanceAs (Decidable (_ ≤ _))

/-- `pruneSentMap` of the main worker (src/ffxiv-tw-news-api.js:1056):
first delete entries whose `sentAt` does not parse to a finite timestamp,
then, if more than `MAX_SENT_MAP_SIZE` entries remain, delete the oldest by
`sentAt` down to the cap.  Returns the pruned map and the `mutated` flag. -/
def pruneSentMap (dp : String → Option Int) (m : SentMap) : SentMap × Bool :=
  let m1 := m.filter (fun p => (dp p.2.sentAt).isSome)
  let mutated1 := m1.length != m.length
  if m1.length > MAX_SENT_MAP_SIZE then
    let sorted := List.insertionSort (pruneLE dp) m1
    let toDelete := sorted.take (m1.length - MAX_SENT_MAP_SIZE)
    (m1.filter (fun p => !(toDelete.any (fun q => q.1 == p.1))), true)
  else (m1, mutated1)

/-- `SENT_MAP_TTL_SECONDS` of the main worker
(src/ffxiv-tw-news-api.js:390): 365 days, used only as the KV expiration
safety net there (its pruner is capacity-based). -/
def SENT_MAP_TTL_SECONDS : Int := 365 * 24 * 60 * 60

/-- `SENT_MAP_TTL_SECONDS` of the multi-source variant
(src/unnamed/part_000:541): 2 days, the cutoff of that variant's time-based
pruner. -/
def SENT_MAP_TTL_SECONDS_V0 : Int := 2 * 24 * 60 * 60

/-- `pruneSentMap` of the multi-source variant (src/unnamed/part_000:1052):
purely time-based — delete entries whose `sentAt` is unparseable or older
than `Date.now() - SENT_MAP_TTL_SECONDS * 1000` with that variant's 2-day
TTL; no capacity cap. -/
def pruneSentMapV0 (dp : String → Option Int) (nowMs : Int) (m : SentMap) :
    SentMap × Bool :=
  let cutoffMs := nowMs - SENT_MAP_TTL_SECONDS_V0 * 1000
  let m1 := m.filter
    (fun p =>
      match dp p.2.sentAt with
      | some t => decide (cutoffMs ≤ t)
      | none => false)
  (m1, m1.length != m.length)

/-- The selection of `processRSS` (src/ffxiv-tw-news-api.js:451-452):
`unsentQueue = articles.filter(a => !a.sent); toSend = unsentQueue.slice(0,
sendLimit)`. -/
def selectForDelivery (articles : List Article) (limit : Nat) : List Article :=
  (articles.filter (fun a => !a.sent)).take limit

/-- The state produced by the delivery loop of `processRSS`: the article
list after in-place mutation, the ledger after upserts, the success count,
and the articles an outbound call was attempted for (in order). -/
structure CycleResult where
  articles : List Article
  sentMap : SentMap
  successCount : Nat
  attempted : List Article
deriving Repr, DecidableEq

/-- The delivery loop of `processRSS` (src/ffxiv-tw-news-api.js:455-470).
The JS iterates over `toSend` — the first `limit` unsent articles — mutating
shared article objects; here the walk is over the full list with an attempt
budget, which attempts exactly those articles.  On success the article is
mutated to `sent=true, sentAt=now` and the ledger entry upserted before the
next outbound call; on failure the article is untouched and the loop
continues with the remaining budget. -/
def deliverLoop (deliver : Article → Bool) (now : String) :
    List Article → Nat → SentMap → CycleResult
  | [], _, m => ⟨[], m, 0, []⟩
  | a :: rest, 0, m => ⟨a :: rest, m, 0, []⟩
  | a :: rest, Nat.succ b, m =>
    if a.sent then
      let r := deliverLoop deliver now rest (Nat.succ b) m
      ⟨a :: r.articles, r.sentMap, r.successCount, r.attempted⟩
    else if deliver a then
      let a1 := { a with sent := true, sentAt := some now }
      let m1 := (setSentEntry now m a1).1
      let r := deliverLoop deliver now rest b m1
      ⟨a1 :: r.articles, r.sentMap, r.successCount + 1, a :: r.attempted⟩
    else
      let r := deliverLoop deliver now rest b m
      ⟨a :: r.articles, r.sentMap, r.successCount, a :: r.attempted⟩

/-- `MAX_ITEMS_PER_SEND` (src/ffxiv-tw-news-api.js:388). -/
def MAX_ITEMS_PER_SEND : Nat := 5

/-- `const sendLimit = testMode ? 1 : MAX_ITEMS_PER_SEND`
(src/ffxiv-tw-news-api.js:429). -/
def apiSendLimit (testMode : Bool) : Nat := if testMode then 1 else MAX_ITEMS_PER_SEND

/-- The batch `processRSS` attempts in one cycle, as a function of the
(post-reconciliation) article list and the test-mode flag. -/
def apiToSend (articles : List Article) (testMode : Bool) : List Article :=
  selectForDelivery articles (apiSendLimit testMode)

/-- A news article of the monitor worker (`src/ffxiv-tw-news-monitor.js`). -/
structure MArticle where
  id : String
  date : String
  category : String
  title : String
deriving Repr, DecidableEq

/-- The snapshot diff of `processFFXIVNews`
(src/ffxiv-tw-news-monitor.js:403-405): articles whose id is not in the
previous snapshot. -/
def monitorNewArticles (allArticles : List MArticle) (previousIds : List String) :
    List MArticle :=
  let currentIds := allArticles.map (·.id)
  let newIds := currentIds.filter (fun i => !previousIds.contains i)
  allArticles.filter (fun a => newIds.contains a.id)

/-- The date order of `processFFXIVNews` step 5 (`new Date(a.date) - new
Date(b.date)`, ascending); `dpm` embeds the host date parser and is only
meaningful on parseable dates. -/
def monitorDateLE (dpm : String → Option Int) (a b : MArticle) : Prop :=
  (dpm a.date).getD 0 ≤ (dpm b.date).getD 0

instance (dpm : String → Option Int) : DecidableRel (monitorDateLE dpm) :=
  fun _ _ => inferInstanceAs (Decidable (_ ≤ _))

/-- Steps 5-6 of `processFFXIVNews` (src/ffxiv-tw-news-monitor.js:414-424):
sort the new articles oldest-to-newest by date; in test mode keep only the
last (newest) one. -/
def monitorArticlesToProcess (dpm : String → Option Int) (testMode : Bool)
    (newArticles : List MArticle) : List MArticle :=
  let sorted := List.insertionSort (monitorDateLE dpm) newArticles
  if testMode then
    match sorted.getLast? with
    | some x => [x]
    | none => sorted
  else sorted

/-- Step 10 of `processFFXIVNews` (src/ffxiv-tw-news-monitor.js:463-468):
the snapshot is written iff `isFirstRun || !testMode`. -/
def monitorSnapshotPersisted (isFirstRun testMode : Bool) : Bool :=
  isFirstRun || !testMode

/-- A parsed JSON value, as produced by `JSON.parse` (all numbers finite;
embedded as integers — the timestamps this core compares are integral). -/
inductive Json where
  | null
  | bool (b : Bool)
  | num (n : Int)
  | str (s : String)
  | arr (elems : List Json)
  | obj (fields : List (String × Json))

/-- JS truthiness of a parsed JSON value. -/
def jsTruthy : Json → Bool
  | .null => false
  | .bool b => b
  | .num n => n ≠ 0
  | .str s => s ≠ ""
  | .arr _ => true
  | .obj _ => true

/-- JS property access `v.k` on a non-null value: a field of an object,
`undefined` (`none`) otherwise.  (Access on `null` throws and is handled at
the use site.) -/
def jsGet : Json → String → Option Json
  | .obj fs, k => (fs.find? (fun p => p.1 == k)).map (·.2)
  | _, _ => none

/-- Truthiness of a possibly-`undefined` property. -/
def jsFieldTruthy : Option Json → Bool
  | some v => jsTruthy v
  | none => false

/-- JS `a || b` where `a` is a possibly-`undefined` property. -/
def jsOrJ (o : Option Json) (alt : Json) : Json :=
  match o with
  | some v => if jsTruthy v then v else alt
  | none => alt

/-- Rendering of one array element under JS `Array.prototype.toString`
(`null` and nested empties render as the empty string; nested arrays are
approximated — no claim depends on them). -/
def jsToStringAtom : Json → String
  | .null => ""
  | .bool true => "true"
  | .bool false => "false"
  | .num n => toString n
  | .str s => s
  | .arr _ => ""
  | .obj _ => "[object Object]"

/-- JS `ToString` coercion of a parsed JSON value (applied by `Date.parse`
to a non-string argument). -/
def jsToString : Json → String
  | .null => "null"
  | .bool true => "true"
  | .bool false => "false"
  | .num n => toString n
  | .str s => s
  | .arr xs => String.intercalate "," (xs.map jsToStringAtom)
  | .obj _ => "[object Object]"

/-- An article record as normalized by `loadDailyState`
(src/ffxiv-tw-news-api.js:1104-1127).  `link`, `title`, `description` and
`thumbnail` are copied (or defaulted) from the stored JSON without a type
check, so they remain dynamic values; the remaining fields are coerced to
their TrackedItem types. -/
structure StoredArticle where
  link : Json
  title : Json
  description : Json
  thumbnail : Json
  guid : Option String
  publishedAt : Option String
  publishedAtMs : Option Int
  sent : Bool
  sentAt : Option String

/-- The per-record normalization of `loadDailyState`: drop falsy records and
records with a falsy `link`; recompute `publishedAtMs` from `publishedAt`
when the stored one is not a (finite) number; coerce `sent` with
`Boolean(...)` and `sentAt`/`guid` to string-or-null; default `title` to
`"No Title"` and `description` to `""`.  Here `iso` embeds
`new Date(ms).toISOString()` and returns `none` where the host call throws
its RangeError (a finite timestamp outside the Date range); the `Except`
error propagates that throw to `loadDailyState`'s catch. -/
def normalizeStoredEntry (dp : String → Option Int) (iso : Int → Option String)
    (entry : Json) : Except Unit (Option StoredArticle) :=
  if !jsTruthy entry then .ok none
  else if !jsFieldTruthy (jsGet entry "link") then .ok none
  else
    let pubAtF := jsGet entry "publishedAt"
    let publishedAtMs : Option Int :=
      match jsGet entry "publishedAtMs" with
      | some (.num n) => some n
      | _ => if jsFieldTruthy pubAtF then dp (jsToString (pubAtF.getD .null)) else none
    let publishedAtE : Except Unit (Option String) :=
      match pubAtF with
      | some (.str s) => .ok (some s)
      | _ =>
        match publishedAtMs with
        | some t =>
          if t ≠ 0 then
            match iso t with
            | some s => .ok (some s)
            | none => .error ()
          else .ok none
        | none => .ok none
    match publishedAtE with
    | .error u => .error u
    | .ok publishedAt =>
      .ok (some
        { link := (jsGet entry "link").getD .null
          title := jsOrJ (jsGet entry "title") (.str "No Title")
          description := jsOrJ (jsGet entry "description") (.str "")
          thumbnail := jsOrJ (jsGet entry "thumbnail") .null
          guid :=
            match jsGet entry "guid" with
            | some (.str s) => some s
            | _ => none
          publishedAt := publishedAt
          publishedAtMs := publishedAtMs
          sent := jsFieldTruthy (jsGet entry "sent")
          sentAt :=
            match jsGet entry "sentAt" with
            | some (.str s) => some s
            | _ => none })

/-- The stored `articles` field of a parsed state blob:
`Array.isArray(data.articles) ? data.articles : []`. -/
def rawArticlesOf (data : Json) : List Json :=
  match jsGet data "articles" with
  | some (.arr xs) => xs
  | _ => []

/-- The `.map(...).filter(Boolean)` normalization of the stored article
array; a record whose normalization throws aborts the whole traversal, as
the exception does in the source. -/
def normalizeStoredArticles (dp : String → Option Int) (iso : Int → Option String) :
    List Json → Except Unit (List StoredArticle)
  | [] => .ok []
  | e :: rest =>
    match normalizeStoredEntry dp iso e with
    | .error u => .error u
    | .ok none => normalizeStoredArticles dp iso rest
    | .ok (some sa) =>
      match normalizeStoredArticles dp iso rest with
      | .error u => .error u
      | .ok l => .ok (sa :: l)

/-- The RSS source configuration fields `loadDailyState` reads. -/
structure Source where
  name : String
  url : String

/-- `DAILY_TIMEZONE` (src/ffxiv-tw-news-api.js:387). -/
def DAILY_TIMEZONE : String := "Asia/Taipei"

/-- The daily state bucket assembled by `loadDailyState`.  The
`sourceName`/`sourceUrl`/`sourceId`/`timezone`/`updatedAt` fields come from
the stored JSON via `||` defaulting and stay dynamic. -/
structure DailyState where
  sourceName : Json
  sourceUrl : Json
  sourceId : Json
  dateKey : String
  timezone : Json
  articles : List StoredArticle
  updatedAt : Json

/-- The `emptyState` of `loadDailyState` (src/ffxiv-tw-news-api.js:1090);
`now` stands for `new Date().toISOString()`. -/
def emptyDailyState (source : Source) (dateKey now : String) : DailyState :=
  { sourceName := .str source.name
    sourceUrl := .str source.url
    sourceId := .str source.url
    dateKey := dateKey
    timezone := .str DAILY_TIMEZONE
    articles := []
    updatedAt := .str now }

/-- What the KV read plus `JSON.parse` produced for the scope key: the key
was absent, the stored blob failed to parse (or the read itself threw), or
it parsed to a JSON value. -/
inductive RawRead where
  | missing
  | unparseable
  | parsed (data : Json)

/-- `loadDailyState` (src/ffxiv-tw-news-api.js:1088): a missing key yields
the empty bucket with `exists=false`; a parse failure is caught and yields
the same; on a parsed value, `data.articles` throws for `null` (caught,
empty bucket, `exists=false`); a record whose normalization throws (the
`toISOString` RangeError) is likewise caught, yielding the empty bucket
with `exists=false`; and any other value yields `exists=true` with the
normalized article array (non-arrays treated as empty) and `||`-defaulted
metadata.  The function itself never propagates an error. -/
def loadDailyState (dp : String → Option Int) (iso : Int → Option String)
    (source : Source) (dateKey now : String) (raw : RawRead) : Bool × DailyState :=
  match raw with
  | .missing => (false, emptyDailyState source dateKey now)
  | .unparseable => (false, emptyDailyState source dateKey now)
  | .parsed data =>
    match data with
    | .null => (false, emptyDailyState source dateKey now)
    | _ =>
      match normalizeStoredArticles dp iso (rawArticlesOf data) with
      | .error _ => (false, emptyDailyState source dateKey now)
      | .ok articles =>
        (true,
          { sourceName := jsOrJ (jsGet data "sourceName") (.str source.name)
            sourceUrl := jsOrJ (jsGet data "sourceUrl") (.str source.url)
            sourceId := jsOrJ (jsGet data "sourceId") (.str source.url)
            dateKey := dateKey
            timezone := jsOrJ (jsGet data "timezone") (.str DAILY_TIMEZONE)
            articles := articles
            updatedAt := jsOrJ (jsGet data "updatedAt") (.str now) })

/-- A concrete stand-in for the host `Date.parse` used by witnesses and
counterexamples: parses strings of decimal digits, `none` (JS `NaN`)
otherwise. -/
def dpX (s : String) : Option Int :=
  if s.data ≠ [] ∧ s.data.all Char.isDigit then
    some (s.data.foldl (fun n c => n * 10 + ((c.toNat : Int) - 48)) 0)
  else none

/-- A concrete stand-in for the host `toISOString` used by witnesses and
counterexamples. -/
def isoX : Int → String := toString

/-- A concrete stand-in for the host `toISOString` with its RangeError:
`none` outside the ±8.64e15 ms Date range. -/
def isoEX (t : Int) : Option String :=
  if t.natAbs ≤ 8640000000000000 then some (toString t) else none

/-- A stored record whose finite `publishedAtMs` lies outside the Date
range and that has no string `publishedAt`: normalizing it throws the
`toISOString` RangeError. -/
def entryHuge : Json :=
  Json.obj [("link", Json.str "L"), ("publishedAtMs", Json.num 10000000000000000)]

/-! Concrete fixtures used by witnesses and counterexamples. -/

/-- A candidate item as `parseRSSItems` produces it. -/
def candA : Article :=
  { link := "l"
    title := "a"
    description := ""
    thumbnail := none
    guid := none
    publishedAt := some "1"
    publishedAtMs := some 1
    sent := false
    sentAt := none }

/-- The same link as `candA` with a different title. -/
def candB : Article := { candA with title := "b" }

/-- An old unsent article. -/
def artOld : Article :=
  { link := "https://a"
    title := "old"
    description := ""
    thumbnail := none
    guid := none
    publishedAt := some "100"
    publishedAtMs := some 100
    sent := false
    sentAt := none }

/-- A newer unsent article. -/
def artNew : Article :=
  { artOld with
    link := "https://b"
    title := "new"
    publishedAt := some "200"
    publishedAtMs := some 200 }

/-- `artOld` as an already-delivered stored article. -/
def artSent : Article := { artOld with sent := true, sentAt := some "T" }

/-- An article with blank `guid` and blank `link`: no identity. -/
def noIdArt : Article :=
  { link := "  "
    title := "t"
    description := "d"
    thumbnail := none
    guid := some " "
    publishedAt := some "5"
    publishedAtMs := some 5
    sent := false
    sentAt := none }

/-- A stored JSON article record with a link and a parseable `publishedAt`
but no `publishedAtMs`, `sent` or `sentAt`. -/
def entry7 : Json := Json.obj [("link", Json.str "L"), ("publishedAt", Json.str "7")]

/-- The normalization of `entry7`. -/
def sa7 : StoredArticle :=
  { link := Json.str "L"
    title := Json.str "No Title"
    description := Json.str ""
    thumbnail := Json.null
    guid := none
    publishedAt := some "7"
    publishedAtMs := some 7
    sent := false
    sentAt := none }

/-- An older monitor article. -/
def mOld : MArticle := { id := "1", date := "100", category := "c", title := "old" }

/-- A newer monitor article. -/
def mNew : MArticle := { id := "2", date := "200", category := "c", title := "new" }

/-! Association-list (JS `Map`) lemmas. -/

theorem mapGet_mapSet_self {β : Type} (m : List (String × β)) (k : String) (v : β) :
    mapGet (mapSet m k v) k = some v := by
  induction m with
  | nil => simp [mapSet, mapGet]
  | cons p rest ih =>
    by_cases h : p.1 = k
    · simp [mapSet, h, mapGet]
    · simp [mapSet, h, mapGet, ih]

theorem mapGet_mapSet_ne {β : Type} (m : List (String × β)) {k k' : String} (v : β)
    (h : k' ≠ k) : mapGet (mapSet m k v) k' = mapGet m k' := by
  induction m with
  | nil => simp [mapSet, mapGet, Ne.symm h]
  | cons p rest ih =>
    by_cases hp : p.1 = k
    · subst hp
      simp [mapSet, mapGet, Ne.symm h]
    · simp only [mapSet, if_neg hp, mapGet]
      by_cases hp' : p.1 = k'
      · simp [hp']
      · simp [hp', ih]

theorem mem_mapSet {β : Type} {m : List (String × β)} {k : String} {v : β}
    {q : String × β} (h : q ∈ mapSet m k v) : q = (k, v) ∨ q ∈ m := by
  induction m with
  | nil => simpa [mapSet] using h
  | cons p rest ih =>
    by_cases hp : p.1 = k
    · simp only [mapSet, if_pos hp, List.mem_cons] at h
      rcases h with h | h
      · exact Or.inl h
      · exact Or.inr (List.mem_cons_of_mem _ h)
    · simp only [mapSet, if_neg hp, List.mem_cons] at h
      rcases h with h | h
      · exact Or.inr (h ▸ List.mem_cons_self _ _)
      · rcases ih h with h' | h'
        · exact Or.inl h'
        · exact Or.inr (List.mem_cons_of_mem _ h')

theorem keys_mapSet_subset {β : Type} {m : List (String × β)} {k x : String} {v : β}
    (h : x ∈ (mapSet m k v).map Prod.fst) : x ∈ m.map Prod.fst ∨ x = k := by
  rcases List.mem_map.1 h with ⟨q, hq, hx⟩
  rcases mem_mapSet hq with h' | h'
  · subst h'
    exact Or.inr hx.symm
  · exact Or.inl (hx ▸ List.mem_map_of_mem _ h')

theorem nodupKeys_mapSet {β : Type} (m : List (String × β)) (k : String) (v : β)
    (h : (m.map Prod.fst).Nodup) : ((mapSet m k v).map Prod.fst).Nodup := by
  induction m with
  | nil => simp [mapSet]
  | cons p rest ih =>
    simp only [List.map_cons, List.nodup_cons] at h
    by_cases hp : p.1 = k
    · subst hp
      simpa [mapSet, List.nodup_cons] using h
    · simp only [mapSet, if_neg hp, List.map_cons, List.nodup_cons]
      refine ⟨fun hmem => ?_, ih h.2⟩
      rcases keys_mapSet_subset hmem with h' | h'
      · exact h.1 h'
      · exact hp h'

theorem mapGet_mem {β : Type} {m : List (String × β)} {k : String} {v : β}
    (h : mapGet m k = some v) : (k, v) ∈ m := by
  induction m with
  | nil => simp [mapGet] at h
  | cons p rest ih =>
    by_cases hp : p.1 = k
    · simp only [mapGet, if_pos hp] at h
      cases h
      exact hp ▸ List.mem_cons_self _ _
    · simp only [mapGet, if_neg hp] at h
      exact List.mem_cons_of_mem _ (ih h)

theorem mem_mapGet {β : Type} {m : List (String × β)} {k : String} {v : β}
    (hn : (m.map Prod.fst).Nodup) (h : (k, v) ∈ m) : mapGet m k = some v := by
  induction m with
  | nil => simp at h
  | cons p rest ih =>
    simp only [List.map_cons, List.nodup_cons] at hn
    rcases List.mem_cons.1 h with h' | h'
    · subst h'
      simp [mapGet]
    · have hp : p.1 ≠ k := by
        intro hk
        exact hn.1 (hk ▸ List.mem_map_of_mem Prod.fst h')
      simp only [mapGet, if_neg hp]
      exact ih hn.2 h'

theorem mapGet_eq_none {β : Type} {m : List (String × β)} {k : String}
    (h : mapGet m k = none) : k ∉ m.map Prod.fst := by
  induction m with
  | nil => simp
  | cons p rest ih =>
    by_cases hp : p.1 = k
    · simp [mapGet, hp] at h
    · simp only [mapGet, if_neg hp] at h
      simp only [List.map_cons, List.mem_cons]
      rintro (h' | h')
      · exact hp h'.symm
      · exact ih h h'

/-! Identity and ledger-membership lemmas. -/

theorem getArticleIdentity_none (a : Article)
    (hg : ∀ g, a.guid = some g → jsTrim g = "") (hl : jsTrim a.link = "") :
    getArticleIdentity a = none := by
  unfold getArticleIdentity
  cases hguid : a.guid with
  | none => simp [strTruthy, hl]
  | some g => simp [strTruthy, hl, hg g hguid]

theorem setSentEntry_noid (a : Article) (now : String) (m : SentMap)
    (hid : getArticleIdentity a = none) : setSentEntry now m a = (m, false) := by
  simp [setSentEntry, hid]

theorem markOne_noid (a : Article) (m : SentMap)
    (hid : getArticleIdentity a = none) : markOne m a = (a, false) := by
  by_cases h : a.sent <;> simp [markOne, h, hid]

theorem select_sub_unsent {l : List Article} {limit : Nat} {b : Article}
    (h : b ∈ selectForDelivery l limit) : b.sent = false := by
  have hb := List.mem_filter.1 (List.take_subset _ _ h)
  simpa using hb.2

/-- C10: an article whose `guid` and `link` are both absent or blank after
trimming has no identity: `getArticleIdentity` returns null,
`setSentEntry` returns false and leaves the ledger unchanged,
`markPreviouslySentArticles` skips it, and a delivery-loop pass over it —
successful or not — leaves the ledger without any record of it. -/
theorem noIdentity_never_in_ledger (a : Article)
    (hg : ∀ g, a.guid = some g → jsTrim g = "") (hl : jsTrim a.link = "") :
    getArticleIdentity a = none
    ∧ (∀ now m, setSentEntry now m a = (m, false))
    ∧ (∀ m, markPreviouslySentArticles [a] m = ([a], false))
    ∧ (∀ deliver now m limit, (deliverLoop deliver now [a] limit m).sentMap = m) := by
  have hid := getArticleIdentity_none a hg hl
  refine ⟨hid, fun now m => setSentEntry_noid a now m hid, fun m => ?_, ?_⟩
  · simp [markPreviouslySentArticles, markOne_noid a m hid]
  · intro deliver now m limit
    have hid1 : getArticleIdentity { a with sent := true, sentAt := some now } = none :=
      getArticleIdentity_none _ hg hl
    match limit with
    | 0 => rfl
    | Nat.succ b =>
      by_cases hs : a.sent
      · simp [deliverLoop, hs]
      · by_cases hd : deliver a <;>
          simp [deliverLoop, hs, hd, setSentEntry_noid _ now m hid1]

/-- Witness for C10 at a concrete blank-identity article. -/
theorem noIdentity_never_in_ledger_witness :
    getArticleIdentity noIdArt = none
    ∧ setSentEntry "NOW" [] noIdArt = ([], false)
    ∧ markPreviouslySentArticles [noIdArt] [] = ([noIdArt], false)
    ∧ (deliverLoop (fun _ => true) "NOW" [noIdArt] 1 []).sentMap = [] := by
  have h := noIdentity_never_in_ledger noIdArt (by decide) (by decide)
  exact ⟨h.1, h.2.1 "NOW" [], h.2.2.1 [], h.2.2.2 (fun _ => true) "NOW" [] 1⟩

/-! Ledger reconciliation (`markPreviouslySentArticles`). -/

theorem markOne_marks (m : SentMap) (a : Article)
    (hm : ∀ p ∈ m, p.2.sentAt ≠ "") (ha : a.sentAt ≠ some "")
    {id : String} {entry : SentEntry}
    (hs : a.sent = false) (hid : getArticleIdentity a = some id)
    (hget : mapGet m (hashIdentifier id) = some entry) :
    markOne m a =
      ({ a with
          sent := true
          sentAt := match a.sentAt with | none => some entry.sentAt | some s => some s },
        true) := by
  have hE : entry.sentAt ≠ "" := hm _ (mapGet_mem hget)
  have hT : strTruthy entry.sentAt = true := by simpa [strTruthy] using hE
  simp only [markOne, hs, Bool.false_eq_true, if_false, hid, hget]
  cases hsa : a.sentAt with
  | none => simp [ostrTruthy, hT]
  | some s =>
    have : s ≠ "" := fun h => ha (by simp [hsa, h])
    simp [ostrTruthy, strTruthy, this]

theorem markOne_flag (m : SentMap) (a : Article) :
    (markOne m a).2 = true ↔
      a.sent = false ∧ ∃ id, getArticleIdentity a = some id ∧
        (mapGet m (hashIdentifier id)).isSome := by
  by_cases hs : a.sent
  · simp [markOne, hs]
  · cases hid : getArticleIdentity a with
    | none => simp [markOne, hs, hid]
    | some id =>
      cases hget : mapGet m (hashIdentifier id) with
      | none => simp [markOne, hs, hid, hget]
      | some entry => simp [markOne, hs, hid, hget]

theorem markOne_untouched (m : SentMap) (a : Article)
    (h : ¬(a.sent = false ∧ ∃ id, getArticleIdentity a = some id ∧
        (mapGet m (hashIdentifier id)).isSome)) :
    markOne m a = (a, false) := by
  by_cases hs : a.sent
  · simp [markOne, hs]
  · cases hid : getArticleIdentity a with
    | none => simp [markOne, hs, hid]
    | some id =>
      cases hget : mapGet m (hashIdentifier id) with
      | none => simp [markOne, hs, hid, hget]
      | some entry =>
        exact absurd ⟨by simpa using hs, id, hid, by simp [hget]⟩ h

/-- C1: reconciliation against the long-lived ledger.  Every unsent article
whose identity hash is in the ledger is marked `sent=true` in place, taking
the ledger's `sentAt` when it had none; the returned flag is true iff some
article was newly marked; and no article marked `sent` — in particular no
reconciled one — is in the batch `processRSS` delivers afterwards, so a
ledger-remembered item reappearing in a fresh (rotated) bucket is not
delivered a second time. -/
theorem mark_ledger_reconciliation (articles : List Article) (m : SentMap)
    (limit : Nat)
    (hm : ∀ p ∈ m, p.2.sentAt ≠ "")
    (ha : ∀ a ∈ articles, a.sentAt ≠ some "") :
    List.Forall₂
      (fun a a1 =>
        ∀ id entry, a.sent = false → getArticleIdentity a = some id →
          mapGet m (hashIdentifier id) = some entry →
          a1 = { a with
                  sent := true
                  sentAt := match a.sentAt with
                    | none => some entry.sentAt
                    | some s => some s })
      articles (markPreviouslySentArticles articles m).1
    ∧ ((markPreviouslySentArticles articles m).2 = true ↔
        ∃ a ∈ articles, a.sent = false ∧ ∃ id, getArticleIdentity a = some id ∧
          (mapGet m (hashIdentifier id)).isSome)
    ∧ (∀ b ∈ selectForDelivery (markPreviouslySentArticles articles m).1 limit,
        b.sent = false) := by
  refine ⟨?_, ?_, fun b hb => select_sub_unsent hb⟩
  · induction articles with
    | nil => simp [markPreviouslySentArticles]
    | cons a rest ih =>
      simp only [markPreviouslySentArticles]
      refine List.Forall₂.cons ?_ (ih (fun x hx => ha x (List.mem_cons_of_mem _ hx)))
      intro id entry hs hid hget
      have := markOne_marks m a hm (ha a (List.mem_cons_self _ _)) hs hid hget
      simp [this]
  · induction articles with
    | nil => simp [markPreviouslySentArticles]
    | cons a rest ih =>
      simp only [markPreviouslySentArticles, Bool.or_eq_true,
        ih (fun x hx => ha x (List.mem_cons_of_mem _ hx)), markOne_flag]
      constructor
      · rintro (h | ⟨x, hx, h⟩)
        · exact ⟨a, List.mem_cons_self _ _, h⟩
        · exact ⟨x, List.mem_cons_of_mem _ hx, h⟩
      · rintro ⟨x, hx, h⟩
        rcases List.mem_cons.1 hx with rfl | hx'
        · exact Or.inl h
        · exact Or.inr ⟨x, hx', h⟩

/-- Witness for C1: an article delivered and ledger-recorded in an earlier
bucket scope reappears unsent in a fresh bucket and is reconciled. -/
theorem mark_ledger_reconciliation_witness :
    List.Forall₂
      (fun a a1 =>
        ∀ id entry, a.sent = false → getArticleIdentity a = some id →
          mapGet [(hashIdentifier "https://a", (⟨"T1", some "https://a"⟩ : SentEntry))]
            (hashIdentifier id) = some entry →
          a1 = { a with
                  sent := true
                  sentAt := match a.sentAt with
                    | none => some entry.sentAt
                    | some s => some s })
      [artOld]
      (markPreviouslySentArticles [artOld]
        [(hashIdentifier "https://a", ⟨"T1", some "https://a"⟩)]).1
    ∧ ((markPreviouslySentArticles [artOld]
        [(hashIdentifier "https://a", ⟨"T1", some "https://a"⟩)]).2 = true ↔
        ∃ a ∈ [artOld], a.sent = false ∧ ∃ id, getArticleIdentity a = some id ∧
          (mapGet [(hashIdentifier "https://a", (⟨"T1", some "https://a"⟩ : SentEntry))]
            (hashIdentifier id)).isSome)
    ∧ (∀ b ∈ selectForDelivery
        (markPreviouslySentArticles [artOld]
          [(hashIdentifier "https://a", ⟨"T1", some "https://a"⟩)]).1 5,
        b.sent = false) :=
  mark_ledger_reconciliation [artOld]
    [(hashIdentifier "https://a", ⟨"T1", some "https://a"⟩)] 5
    (by decide) (by decide)

/-! Delivery loop lemmas. -/

theorem deliverLoop_attempted (deliver : Article → Bool) (now : String) :
    ∀ (articles : List Article) (limit : Nat) (m : SentMap),
      (deliverLoop deliver now articles limit m).attempted =
        selectForDelivery articles limit := by
  intro articles
  induction articles with
  | nil => intro limit m; cases limit <;> simp [deliverLoop, selectForDelivery]
  | cons a rest ih =>
    intro limit m
    cases limit with
    | zero => simp [deliverLoop, selectForDelivery]
    | succ b =>
      by_cases hs : a.sent
      · simp [deliverLoop, hs, ih, selectForDelivery]
      · by_cases hd : deliver a <;>
          simp [deliverLoop, hs, hd, ih, selectForDelivery]

theorem deliverLoop_successCount (deliver : Article → Bool) (now : String) :
    ∀ (articles : List Article) (limit : Nat) (m : SentMap),
      (deliverLoop deliver now articles limit m).successCount =
        ((selectForDelivery articles limit).filter (fun a => deliver a)).length := by
  intro articles
  induction articles with
  | nil => intro limit m; cases limit <;> simp [deliverLoop, selectForDelivery]
  | cons a rest ih =>
    intro limit m
    cases limit with
    | zero => simp [deliverLoop, selectForDelivery]
    | succ b =>
      by_cases hs : a.sent
      · simp [deliverLoop, hs, ih, selectForDelivery]
      · by_cases hd : deliver a <;>
          simp [deliverLoop, hs, hd, ih, selectForDelivery]

theorem deliverLoop_pending (now : String) :
    ∀ (articles : List Article) (limit : Nat) (m : SentMap) (deliver : Article → Bool),
      (∀ a, deliver a = true) →
      ((deliverLoop deliver now articles limit m).articles.filter
          (fun a => !a.sent)).length =
        (articles.filter (fun a => !a.sent)).length -
          min limit (articles.filter (fun a => !a.sent)).length := by
  intro articles
  induction articles with
  | nil => intro limit m deliver _; cases limit <;> simp [deliverLoop]
  | cons a rest ih =>
    intro limit m deliver hd
    cases limit with
    | zero => simp [deliverLoop]
    | succ b =>
      by_cases hs : a.sent
      · simpa [deliverLoop, hs] using ih (b + 1) m deliver hd
      · have h1 := ih b ((setSentEntry now m { a with sent := true, sentAt := some now }).1)
          deliver hd
        simp [deliverLoop, hs, hd a, List.filter_cons, h1]
        omega

/-- C5: bounded, oldest-first selection.  The articles a cycle attempts are
exactly the unsent ones in merged (ascending publish time) order, truncated
to the first `limit`; with an always-accepting sink the cycle delivers
exactly `min limit N` of the `N` unsent items and leaves `N - min limit N`
still pending for a later cycle. -/
theorem cycle_bounded_oldest_first (deliver : Article → Bool) (now : String)
    (articles : List Article) (limit : Nat) (m : SentMap)
    (hd : ∀ a, deliver a = true) :
    (deliverLoop deliver now articles limit m).attempted =
      selectForDelivery articles limit
    ∧ (deliverLoop deliver now articles limit m).attempted.length =
        min limit (articles.filter (fun a => !a.sent)).length
    ∧ (deliverLoop deliver now articles limit m).successCount =
        min limit (articles.filter (fun a => !a.sent)).length
    ∧ ((deliverLoop deliver now articles limit m).articles.filter
          (fun a => !a.sent)).length =
        (articles.filter (fun a => !a.sent)).length -
          min limit (articles.filter (fun a => !a.sent)).length := by
  have hatt := deliverLoop_attempted deliver now articles limit m
  have hlen : (selectForDelivery articles limit).length =
      min limit (articles.filter (fun a => !a.sent)).length := by
    simp [selectForDelivery]
  refine ⟨hatt, by rw [hatt, hlen], ?_, deliverLoop_pending now articles limit m deliver hd⟩
  rw [deliverLoop_successCount deliver now articles limit m]
  rw [List.filter_eq_self.2 (fun a _ => hd a), hlen]

/-- Witness for C5: two unsent articles, limit 1 — the older is attempted
and delivered, one stays pending. -/
theorem cycle_bounded_oldest_first_witness :
    (deliverLoop (fun _ => true) "NOW" [artOld, artNew] 1 []).attempted =
      selectForDelivery [artOld, artNew] 1
    ∧ (deliverLoop (fun _ => true) "NOW" [artOld, artNew] 1 []).attempted.length =
        min 1 ([artOld, artNew].filter (fun a => !a.sent)).length
    ∧ (deliverLoop (fun _ => true) "NOW" [artOld, artNew] 1 []).successCount =
        min 1 ([artOld, artNew].filter (fun a => !a.sent)).length
    ∧ ((deliverLoop (fun _ => true) "NOW" [artOld, artNew] 1 []).articles.filter
          (fun a => !a.sent)).length =
        ([artOld, artNew].filter (fun a => !a.sent)).length -
          min 1 ([artOld, artNew].filter (fun a => !a.sent)).length :=
  cycle_bounded_oldest_first (fun _ => true) "NOW" [artOld, artNew] 1 []
    (fun _ => rfl)

theorem deliverLoop_failed_kept (deliver : Article → Bool) (now : String) :
    ∀ (articles : List Article) (limit : Nat) (m : SentMap) (x : Article),
      x ∈ (deliverLoop deliver now articles limit m).attempted →
      deliver x = false →
      x ∈ (deliverLoop deliver now articles limit m).articles := by
  intro articles
  induction articles with
  | nil =>
    intro limit m x hx _
    cases limit <;> simp [deliverLoop] at hx
  | cons a rest ih =>
    intro limit m x hx hdx
    cases limit with
    | zero => simp [deliverLoop] at hx
    | succ b =>
      by_cases hs : a.sent
      · simp only [deliverLoop, hs, if_true] at hx ⊢
        exact List.mem_cons_of_mem _ (ih (b + 1) m x hx hdx)
      · by_cases hd : deliver a
        · simp only [deliverLoop, hs, hd, Bool.false_eq_true, if_false, if_true,
            List.mem_cons] at hx ⊢
          rcases hx with rfl | hx
          · rw [hd] at hdx
            exact absurd hdx (by simp)
          · exact Or.inr (ih b _ x hx hdx)
        · simp only [deliverLoop, hs, hd, Bool.false_eq_true, if_false,
            List.mem_cons] at hx ⊢
          rcases hx with rfl | hx
          · exact Or.inl rfl
          · exact Or.inr (ih b m x hx hdx)

/-- C7: partial-failure semantics of the delivery loop.  A successful sink
call immediately rewrites the item to `sent=true, sentAt=now` and upserts
the ledger entry before the loop continues; a failed call leaves the item
untouched (still `sent=false`, `sentAt` unchanged) and the loop goes on to
the remaining budget instead of aborting; over a duplicate-free article
list no article is attempted twice within the cycle; and every attempted
article the sink rejected is still present, unchanged, in the cycle's
output list (pending for a later cycle). -/
theorem delivery_partial_failure (deliver : Article → Bool) (now : String)
    (a : Article) (rest : List Article) (b : Nat) (m : SentMap)
    (articles : List Article) (limit : Nat)
    (hs : a.sent = false) :
    (deliver a = true →
      deliverLoop deliver now (a :: rest) (b + 1) m =
        { articles := { a with sent := true, sentAt := some now } ::
            (deliverLoop deliver now rest b
              ((setSentEntry now m { a with sent := true, sentAt := some now }).1)).articles
          sentMap := (deliverLoop deliver now rest b
              ((setSentEntry now m { a with sent := true, sentAt := some now }).1)).sentMap
          successCount := (deliverLoop deliver now rest b
              ((setSentEntry now m { a with sent := true, sentAt := some now }).1)).successCount + 1
          attempted := a :: (deliverLoop deliver now rest b
              ((setSentEntry now m { a with sent := true, sentAt := some now }).1)).attempted })
    ∧ (deliver a = false →
      deliverLoop deliver now (a :: rest) (b + 1) m =
        { articles := a :: (deliverLoop deliver now rest b m).articles
          sentMap := (deliverLoop deliver now rest b m).sentMap
          successCount := (deliverLoop deliver now rest b m).successCount
          attempted := a :: (deliverLoop deliver now rest b m).attempted })
    ∧ (articles.Nodup →
        ∀ x, (deliverLoop deliver now articles limit m).attempted.count x ≤ 1)
    ∧ (∀ x, x ∈ (deliverLoop deliver now articles limit m).attempted →
        deliver x = false →
        x ∈ (deliverLoop deliver now articles limit m).articles) := by
  refine ⟨fun hd => ?_, fun hd => ?_, fun hnd x => ?_,
    fun x hx hdx => deliverLoop_failed_kept deliver now articles limit m x hx hdx⟩
  · simp [deliverLoop, hs, hd]
  · simp [deliverLoop, hs, hd]
  · have hatt := deliverLoop_attempted deliver now articles limit m
    have hsub : List.Sublist (selectForDelivery articles limit) articles :=
      List.Sublist.trans (List.take_sublist _ _) (List.filter_sublist _)
    have hnd' : (deliverLoop deliver now articles limit m).attempted.Nodup := by
      rw [hatt]; exact hsub.nodup hnd
    exact List.nodup_iff_count_le_one.1 hnd' x

/-- Witness for C7 at a concrete two-article cycle with a sink that rejects
the first article. -/
theorem delivery_partial_failure_witness :
    ((fun x => decide (x = artNew)) artOld = true →
      deliverLoop (fun x => decide (x = artNew)) "NOW" (artOld :: [artNew]) (0 + 1) [] =
        { articles := { artOld with sent := true, sentAt := some "NOW" } ::
            (deliverLoop (fun x => decide (x = artNew)) "NOW" [artNew] 0
              ((setSentEntry "NOW" []
                { artOld with sent := true, sentAt := some "NOW" }).1)).articles
          sentMap := (deliverLoop (fun x => decide (x = artNew)) "NOW" [artNew] 0
              ((setSentEntry "NOW" []
                { artOld with sent := true, sentAt := some "NOW" }).1)).sentMap
          successCount := (deliverLoop (fun x => decide (x = artNew)) "NOW" [artNew] 0
              ((setSentEntry "NOW" []
                { artOld with sent := true, sentAt := some "NOW" }).1)).successCount + 1
          attempted := artOld :: (deliverLoop (fun x => decide (x = artNew)) "NOW" [artNew] 0
              ((setSentEntry "NOW" []
                { artOld with sent := true, sentAt := some "NOW" }).1)).attempted })
    ∧ ((fun x => decide (x = artNew)) artOld = false →
      deliverLoop (fun x => decide (x = artNew)) "NOW" (artOld :: [artNew]) (0 + 1) [] =
        { articles := artOld ::
            (deliverLoop (fun x => decide (x = artNew)) "NOW" [artNew] 0 []).articles
          sentMap := (deliverLoop (fun x => decide (x = artNew)) "NOW" [artNew] 0 []).sentMap
          successCount :=
            (deliverLoop (fun x => decide (x = artNew)) "NOW" [artNew] 0 []).successCount
          attempted := artOld ::
            (deliverLoop (fun x => decide (x = artNew)) "NOW" [artNew] 0 []).attempted })
    ∧ ([artOld, artNew].Nodup →
        ∀ x, (deliverLoop (fun x => decide (x = artNew)) "NOW" [artOld, artNew] 5 []).attempted.count x ≤ 1)
    ∧ (∀ x, x ∈ (deliverLoop (fun x => decide (x = artNew)) "NOW"
          [artOld, artNew] 5 []).attempted →
        (fun x => decide (x = artNew)) x = false →
        x ∈ (deliverLoop (fun x => decide (x = artNew)) "NOW"
          [artOld, artNew] 5 []).articles) :=
  delivery_partial_failure (fun x => decide (x = artNew)) "NOW" artOld [artNew] 0 []
    [artOld, artNew] 5 (by decide)

/-! Ledger pruning. -/

instance (dp : String → Option Int) : IsTotal (String × SentEntry) (pruneLE dp) :=
  ⟨fun a b => Int.le_total (pruneKeyOf dp a) (pruneKeyOf dp b)⟩

instance (dp : String → Option Int) : IsTrans (String × SentEntry) (pruneLE dp) :=
  ⟨fun _ _ _ hab hbc => le_trans hab hbc⟩

/-- Counterexample to C6 as stated: a ledger at or under the cap can lose
entries to pruning.  In the main worker an entry whose `sentAt` does not
parse is deleted regardless of the count; in the `part_000` variant pruning
is time-based — an entry older than that variant's 2-day TTL is deleted
from a one-entry ledger. -/
theorem pruneSentMap_under_cap_loses_entries :
    ([("h", (⟨"garbage", none⟩ : SentEntry))].length ≤ MAX_SENT_MAP_SIZE
      ∧ (pruneSentMap dpX [("h", ⟨"garbage", none⟩)]).1 ≠ [("h", ⟨"garbage", none⟩)])
    ∧ ([("h", (⟨"0", none⟩ : SentEntry))].length ≤ MAX_SENT_MAP_SIZE
      ∧ (pruneSentMapV0 dpX 40000000000000 [("h", ⟨"0", none⟩)]).1 = []) := by
  decide

/-- C6 (amended): pruning of the main worker's ledger is capacity-based,
not time-based.  Entries with unparseable `sentAt` are always removed; on a
ledger of parseable entries, nothing is removed at or under the cap of 500,
and above the cap exactly the oldest-by-`sentAt` entries are removed to
leave exactly 500, every kept entry at least as recent as every removed
one.  (The `part_000` variant instead prunes by its 2-day TTL.) -/
theorem pruneSentMap_capacity (dp : String → Option Int) (m : SentMap)
    (hv : ∀ p ∈ m, (dp p.2.sentAt).isSome)
    (hk : (m.map Prod.fst).Nodup) :
    (m.length ≤ MAX_SENT_MAP_SIZE → pruneSentMap dp m = (m, false))
    ∧ (m.length > MAX_SENT_MAP_SIZE →
        (pruneSentMap dp m).1.length = MAX_SENT_MAP_SIZE
        ∧ (pruneSentMap dp m).2 = true
        ∧ (∀ p ∈ (pruneSentMap dp m).1, p ∈ m)
        ∧ (∀ p ∈ (pruneSentMap dp m).1, ∀ q ∈ m, q ∉ (pruneSentMap dp m).1 →
            pruneKeyOf dp q ≤ pruneKeyOf dp p)) := by
  have h0 : m.filter (fun p => (dp p.2.sentAt).isSome) = m :=
    List.filter_eq_self.2 (fun p hp => by simpa using hv p hp)
  constructor
  · intro hle
    have hgt : ¬(m.length > MAX_SENT_MAP_SIZE) := not_lt.2 hle
    simp [pruneSentMap, h0, hgt]
  · intro hgt
    have hperm : List.Perm (List.insertionSort (pruneLE dp) m) m :=
      List.perm_insertionSort _ m
    have hsorted : List.Sorted (pruneLE dp) (List.insertionSort (pruneLE dp) m) :=
      List.sorted_insertionSort _ m
    have hkeys : ((List.insertionSort (pruneLE dp) m).map Prod.fst).Nodup :=
      ((hperm.map Prod.fst).nodup_iff).2 hk
    set sorted := List.insertionSort (pruneLE dp) m with hsorteddef
    set d := m.length - MAX_SENT_MAP_SIZE with hd
    set pred := fun p : String × SentEntry =>
      !((sorted.take d).any (fun q => q.1 == p.1)) with hpred
    have htd : sorted = sorted.take d ++ sorted.drop d := (List.take_append_drop d sorted).symm
    have hkeysplit :
        List.Disjoint ((sorted.take d).map Prod.fst) ((sorted.drop d).map Prod.fst) := by
      have hnd : ((sorted.take d).map Prod.fst ++ (sorted.drop d).map Prod.fst).Nodup := by
        rw [← List.map_append, ← htd]; exact hkeys
      exact (List.nodup_append.1 hnd).2.2
    have hpredtake : ∀ p ∈ sorted.take d, pred p = false := by
      intro p hp
      have : (sorted.take d).any (fun q => q.1 == p.1) = true :=
        List.any_eq_true.2 ⟨p, hp, by simp⟩
      simp [hpred, this]
    have hpreddrop : ∀ p ∈ sorted.drop d, pred p = true := by
      intro p hp
      rcases hany : (sorted.take d).any (fun q => q.1 == p.1) with _ | _
      · simp [hpred, hany]
      · exfalso
        rcases List.any_eq_true.1 hany with ⟨q, hq, hq1⟩
        have hq1' : q.1 = p.1 := by simpa using hq1
        refine hkeysplit (List.mem_map_of_mem Prod.fst hq) ?_
        rw [hq1']
        exact List.mem_map_of_mem Prod.fst hp
    have hfilter : List.Perm (m.filter pred) (sorted.drop d) := by
      have h1 : List.Perm (m.filter pred) (sorted.filter pred) := hperm.symm.filter pred
      have h2 : sorted.filter pred = sorted.drop d := by
        conv_lhs => rw [htd]
        rw [List.filter_append,
          List.filter_eq_nil_iff.2 (fun a ha => by simp [hpredtake a ha]),
          List.filter_eq_self.2 hpreddrop, List.nil_append]
      exact h2 ▸ h1
    have hr : (pruneSentMap dp m).1 = m.filter pred := by
      simp only [pruneSentMap, h0]
      rw [if_pos hgt]
    have hr2 : (pruneSentMap dp m).2 = true := by
      simp only [pruneSentMap, h0]
      rw [if_pos hgt]
    have hlen : (pruneSentMap dp m).1.length = MAX_SENT_MAP_SIZE := by
      rw [hr, hfilter.length_eq, List.length_drop, hperm.length_eq]
      omega
    refine ⟨hlen, hr2, fun p hp => ?_, fun p hp q hq hqn => ?_⟩
    · rw [hr] at hp
      exact List.mem_of_mem_filter hp
    · have hpd : p ∈ sorted.drop d := hfilter.mem_iff.1 (hr ▸ hp)
      have hqs : q ∈ sorted := hperm.mem_iff.2 hq
      have hqt : q ∈ sorted.take d := by
        rcases (List.mem_append.1 (htd ▸ hqs)) with h | h
        · exact h
        · exact absurd (hr ▸ List.mem_filter.2 ⟨hq, hpreddrop q h⟩) hqn
      have := (List.pairwise_append.1 (htd ▸ hsorted)).2.2 q hqt p hpd
      exact this

/-- Witness for C6 at a small all-parseable ledger (the under-cap branch is
exercised; the over-cap branch holds vacuously here). -/
theorem pruneSentMap_capacity_witness :
    (([("h1", (⟨"1", none⟩ : SentEntry)), ("h2", ⟨"2", none⟩)] : SentMap).length ≤
        MAX_SENT_MAP_SIZE →
      pruneSentMap dpX [("h1", ⟨"1", none⟩), ("h2", ⟨"2", none⟩)] =
        ([("h1", ⟨"1", none⟩), ("h2", ⟨"2", none⟩)], false))
    ∧ (([("h1", (⟨"1", none⟩ : SentEntry)), ("h2", ⟨"2", none⟩)] : SentMap).length >
        MAX_SENT_MAP_SIZE →
        (pruneSentMap dpX [("h1", ⟨"1", none⟩), ("h2", ⟨"2", none⟩)]).1.length =
          MAX_SENT_MAP_SIZE
        ∧ (pruneSentMap dpX [("h1", ⟨"1", none⟩), ("h2", ⟨"2", none⟩)]).2 = true
        ∧ (∀ p ∈ (pruneSentMap dpX [("h1", ⟨"1", none⟩), ("h2", ⟨"2", none⟩)]).1,
            p ∈ ([("h1", ⟨"1", none⟩), ("h2", ⟨"2", none⟩)] : SentMap))
        ∧ (∀ p ∈ (pruneSentMap dpX [("h1", ⟨"1", none⟩), ("h2", ⟨"2", none⟩)]).1,
            ∀ q ∈ ([("h1", ⟨"1", none⟩), ("h2", ⟨"2", none⟩)] : SentMap),
              q ∉ (pruneSentMap dpX [("h1", ⟨"1", none⟩), ("h2", ⟨"2", none⟩)]).1 →
                pruneKeyOf dpX q ≤ pruneKeyOf dpX p)) :=
  pruneSentMap_capacity dpX [("h1", ⟨"1", none⟩), ("h2", ⟨"2", none⟩)]
    (by decide) (by decide)

/-! State loader (`loadDailyState`). -/

/-- Counterexample to C8 as stated: a stored value of the wrong shape does
not yield `existed=false`.  The JSON number `5` is not a state record, yet
`loadDailyState` returns `exists=true` (with an empty article list); only a
missing key, unparseable JSON, a JSON `null`, or a record whose
normalization throws yield `existed=false`. -/
theorem loadDailyState_wrong_shape_not_existed_false :
    (loadDailyState dpX isoEX ⟨"s", "u"⟩ "D" "NOW" (.parsed (Json.num 5))).1 = true
    ∧ (loadDailyState dpX isoEX ⟨"s", "u"⟩ "D" "NOW"
        (.parsed (Json.num 5))).2.articles = [] :=
  ⟨rfl, rfl⟩

/-- C8 (amended): the state loader never propagates an error.  A missing
key, unparseable JSON, or a stored JSON `null` (whose property access
throws and is caught) yield the empty bucket with `existed=false`; a parsed
value whose article normalization throws — `new Date(ms).toISOString()`
raises RangeError on a finite out-of-range `publishedAtMs` with no string
`publishedAt` — is caught and likewise yields the empty bucket with
`existed=false`; every other parsed value yields `existed=true`, its
`articles` obtained by normalization: records that are falsy or lack a
truthy `link` are dropped, a missing `sent` field is coerced to `false`, a
missing `sentAt` to null, and `publishedAtMs` is recomputed by parsing a
non-blank string `publishedAt` whenever the stored `publishedAtMs` is not
a number. -/
theorem loadDailyState_spec (dp : String → Option Int) (iso : Int → Option String)
    (source : Source) (dateKey now : String) :
    (loadDailyState dp iso source dateKey now .missing =
      (false, emptyDailyState source dateKey now))
    ∧ (loadDailyState dp iso source dateKey now .unparseable =
      (false, emptyDailyState source dateKey now))
    ∧ (loadDailyState dp iso source dateKey now (.parsed .null) =
      (false, emptyDailyState source dateKey now))
    ∧ (∀ j, j ≠ Json.null →
        ∀ arts, normalizeStoredArticles dp iso (rawArticlesOf j) = .ok arts →
          (loadDailyState dp iso source dateKey now (.parsed j)).1 = true
          ∧ (loadDailyState dp iso source dateKey now (.parsed j)).2.articles = arts)
    ∧ (∀ j, j ≠ Json.null →
        normalizeStoredArticles dp iso (rawArticlesOf j) = .error () →
        loadDailyState dp iso source dateKey now (.parsed j) =
          (false, emptyDailyState source dateKey now))
    ∧ (∀ entry, jsFieldTruthy (jsGet entry "link") = false →
        normalizeStoredEntry dp iso entry = .ok none)
    ∧ (∀ entry sa, normalizeStoredEntry dp iso entry = .ok (some sa) →
        (jsGet entry "sent" = none → sa.sent = false)
        ∧ (jsGet entry "sentAt" = none → sa.sentAt = none)
        ∧ (∀ s, (∀ n, jsGet entry "publishedAtMs" ≠ some (Json.num n)) →
            jsGet entry "publishedAt" = some (Json.str s) → strTruthy s = true →
            sa.publishedAtMs = dp s)) := by
  refine ⟨rfl, rfl, rfl, fun j hj arts hok => ?_, fun j hj herr => ?_,
    fun entry hlink => ?_, fun entry sa h => ?_⟩
  · cases j with
    | null => exact absurd rfl hj
    | bool b => exact ⟨by simp [loadDailyState, hok], by simp [loadDailyState, hok]⟩
    | num n => exact ⟨by simp [loadDailyState, hok], by simp [loadDailyState, hok]⟩
    | str s => exact ⟨by simp [loadDailyState, hok], by simp [loadDailyState, hok]⟩
    | arr xs => exact ⟨by simp [loadDailyState, hok], by simp [loadDailyState, hok]⟩
    | obj fs => exact ⟨by simp [loadDailyState, hok], by simp [loadDailyState, hok]⟩
  · cases j with
    | null => exact absurd rfl hj
    | bool b => simp [loadDailyState, herr]
    | num n => simp [loadDailyState, herr]
    | str s => simp [loadDailyState, herr]
    | arr xs => simp [loadDailyState, herr]
    | obj fs => simp [loadDailyState, herr]
  · by_cases h1 : jsTruthy entry
    · simp [normalizeStoredEntry, h1, hlink]
    · simp [normalizeStoredEntry, h1]
  · by_cases h1 : jsTruthy entry
    · by_cases h2 : jsFieldTruthy (jsGet entry "link")
      · simp only [normalizeStoredEntry, h1, h2, Bool.not_true, Bool.false_eq_true,
          if_false] at h
        split at h
        · exact absurd h (by simp)
        · simp only [Except.ok.injEq, Option.some.injEq] at h
          subst h
          refine ⟨fun hsent => by simp [hsent, jsFieldTruthy],
            fun hsentAt => by simp [hsentAt], fun s hnum hpub hs => ?_⟩
          have hs' : s ≠ "" := by simpa [strTruthy] using hs
          rcases hms : jsGet entry "publishedAtMs" with _ | v
          · simp [hms, hpub, jsFieldTruthy, jsTruthy, hs', jsToString]
          · cases v with
            | num n => exact absurd hms (hnum n)
            | null => simp [hms, hpub, jsFieldTruthy, jsTruthy, hs', jsToString]
            | bool b => simp [hms, hpub, jsFieldTruthy, jsTruthy, hs', jsToString]
            | str s2 => simp [hms, hpub, jsFieldTruthy, jsTruthy, hs', jsToString]
            | arr xs => simp [hms, hpub, jsFieldTruthy, jsTruthy, hs', jsToString]
            | obj fs => simp [hms, hpub, jsFieldTruthy, jsTruthy, hs', jsToString]
      · simp [normalizeStoredEntry, h1, h2] at h
    · simp [normalizeStoredEntry, h1] at h

/-- Witness for C8 at concrete inputs: a missing key, a wrong-shape value,
a record whose out-of-range timestamp throws in normalization (caught,
`existed=false`), a linkless record (dropped), and a record with only
`link`/`publishedAt` (whose `sent`/`sentAt` are defaulted and
`publishedAtMs` recomputed). -/
theorem loadDailyState_spec_witness :
    loadDailyState dpX isoEX ⟨"s", "u"⟩ "D" "NOW" .missing =
      (false, emptyDailyState ⟨"s", "u"⟩ "D" "NOW")
    ∧ (loadDailyState dpX isoEX ⟨"s", "u"⟩ "D" "NOW" (.parsed (Json.num 5))).1 = true
    ∧ loadDailyState dpX isoEX ⟨"s", "u"⟩ "D" "NOW"
        (.parsed (Json.obj [("articles", Json.arr [entryHuge])])) =
        (false, emptyDailyState ⟨"s", "u"⟩ "D" "NOW")
    ∧ normalizeStoredEntry dpX isoEX (Json.obj [("title", Json.str "t")]) = .ok none
    ∧ sa7.sent = false
    ∧ sa7.sentAt = none
    ∧ sa7.publishedAtMs = dpX "7" := by
  have h := loadDailyState_spec dpX isoEX ⟨"s", "u"⟩ "D" "NOW"
  have h7 := h.2.2.2.2.2.2 entry7 sa7 rfl
  exact ⟨h.1,
    (h.2.2.2.1 (Json.num 5) (fun hn => Json.noConfusion hn) [] rfl).1,
    h.2.2.2.2.1 (Json.obj [("articles", Json.arr [entryHuge])])
      (fun hn => Json.noConfusion hn) rfl,
    h.2.2.2.2.2.1 (Json.obj [("title", Json.str "t")]) rfl,
    h7.1 rfl, h7.2.1 rfl,
    h7.2.2 "7" (fun n hn => by simp [entry7, jsGet] at hn) rfl rfl⟩

/-! Test mode (C9). -/

/-- C9 evaluation at the failing input: `processRSS` in test mode forces the
limit to 1 but attempts the OLDEST unsent article (`slice(0, 1)` of the
ascending unsent queue) — `artOld`, strictly older than `artNew` — and not
the newest as its own `/trigger` response text ("latest article only")
documents; the monitor worker's test mode does process the single newest
article and skips the snapshot write. -/
theorem testMode_api_attempts_oldest :
    apiSendLimit true = 1
    ∧ apiToSend [artOld, artNew] true = [artOld]
    ∧ artOld ≠ artNew
    ∧ articleTime artOld < articleTime artNew
    ∧ monitorArticlesToProcess dpX true [mOld, mNew] = [mNew]
    ∧ monitorSnapshotPersisted false true = false := by
  refine ⟨rfl, by decide, by decide, by decide, by decide, rfl⟩

/-! Merge output order (C4). -/

instance : IsTotal Article mergeLE := by
  constructor
  intro a b
  rcases lt_trichotomy (articleTime a) (articleTime b) with h | h | h
  · exact Or.inl (Or.inl h)
  · rcases le_total a.link b.link with hl | hl
    · exact Or.inl (Or.inr ⟨h, hl⟩)
    · exact Or.inr (Or.inr ⟨h.symm, hl⟩)
  · exact Or.inr (Or.inl h)

instance : IsTrans Article mergeLE := by
  constructor
  intro a b c hab hbc
  rcases hab with h1 | ⟨h1, l1⟩
  · rcases hbc with h2 | ⟨h2, l2⟩
    · exact Or.inl (h1.trans h2)
    · exact Or.inl (h2 ▸ h1)
  · rcases hbc with h2 | ⟨h2, l2⟩
    · exact Or.inl (h1 ▸ h2)
    · exact Or.inr ⟨h1.trans h2, l1.trans l2⟩

theorem mergeLE_antisymm_link {a b : Article} (hab : mergeLE a b) (hba : mergeLE b a) :
    a.link = b.link := by
  rcases hab with h1 | ⟨h1, l1⟩
  · rcases hba with h2 | ⟨h2, l2⟩
    · exact absurd (h1.trans h2) (lt_irrefl _)
    · exact absurd h1 (h2 ▸ lt_irrefl _)
  · rcases hba with h2 | ⟨h2, l2⟩
    · exact absurd h2 (h1 ▸ lt_irrefl _)
    · exact le_antisymm l1 l2

theorem mapInv_mapSet {m : List (String × Article)} {k : String} {v : Article}
    (h : MapInv m) (hv : v.link = k) (hk : k ≠ "") : MapInv (mapSet m k v) := by
  refine ⟨nodupKeys_mapSet m k v h.1, fun p hp => ?_⟩
  rcases mem_mapSet hp with rfl | hp'
  · exact ⟨hv, hk⟩
  · exact h.2 p hp'

theorem mapInv_mergeSeedLoop (dp : String → Option Int) (iso : Int → String) :
    ∀ (l : List Article) (m : List (String × Article)), MapInv m →
      MapInv (mergeSeedLoop dp iso m l) := by
  intro l
  induction l with
  | nil => intro m h; simpa [mergeSeedLoop] using h
  | cons a rest ih =>
    intro m h
    simp only [mergeSeedLoop]
    by_cases hl : strTruthy a.link
    · have hl' : a.link ≠ "" := by simpa [strTruthy] using hl
      exact ih _ (if_pos hl ▸ mapInv_mapSet h rfl hl')
    · exact ih _ (if_neg hl ▸ h)

theorem mapInv_mergeSeed (dp : String → Option Int) (iso : Int → String)
    (existingArticles : List Article) : MapInv (mergeSeed dp iso existingArticles) :=
  mapInv_mergeSeedLoop dp iso existingArticles [] ⟨List.nodup_nil, by simp⟩

theorem mapInv_mergeStep {m : List (String × Article)} (item : Article)
    (h : MapInv m) : MapInv (mergeStep m item).1 := by
  by_cases hl : strTruthy item.link
  · have hl' : item.link ≠ "" := by simpa [strTruthy] using hl
    cases hget : mapGet m item.link with
    | none =>
      simpa [mergeStep, hl, hget] using
        @mapInv_mapSet m item.link (insertArticle item) h rfl hl'
    | some existing =>
      have hex : existing.link = item.link := (h.2 _ (mapGet_mem hget)).1
      by_cases hup : articleUpdated existing item
      · have : (updateArticle existing item).link = item.link := hex
        simpa [mergeStep, hl, hget, hup] using mapInv_mapSet h this hl'
      · simpa [mergeStep, hl, hget, hup] using h
  · simpa [mergeStep, hl] using h

theorem mapInv_mergeFold :
    ∀ (items : List Article) (m : List (String × Article)), MapInv m →
      MapInv (mergeFold m items).1 := by
  intro items
  induction items with
  | nil => intro m h; simpa [mergeFold] using h
  | cons item rest ih =>
    intro m h
    simpa [mergeFold] using ih _ (mapInv_mergeStep item h)

theorem links_nodup_of_mapInv {m : List (String × Article)} (h : MapInv m) :
    ((m.map (·.2)).map Article.link).Nodup := by
  have : (m.map (·.2)).map Article.link = m.map Prod.fst := by
    rw [List.map_map]
    exact List.map_congr_left (fun p hp => (h.2 p hp).1)
  exact this ▸ h.1

theorem mergeArticles_sorted (dp : String → Option Int) (iso : Int → String)
    (existingArticles newItems : List Article) :
    List.Sorted mergeLE (mergeArticles dp iso existingArticles newItems).1 :=
  List.sorted_insertionSort mergeLE _

theorem mergeArticles_links_nodup (dp : String → Option Int) (iso : Int → String)
    (existingArticles newItems : List Article) :
    ((mergeArticles dp iso existingArticles newItems).1.map Article.link).Nodup := by
  have hinv : MapInv (mergeFold (mergeSeed dp iso existingArticles) newItems).1 :=
    mapInv_mergeFold newItems _ (mapInv_mergeSeed dp iso existingArticles)
  have hperm :
      List.Perm
        ((mergeArticles dp iso existingArticles newItems).1.map Article.link)
        (((mergeFold (mergeSeed dp iso existingArticles) newItems).1.map (·.2)).map
          Article.link) :=
    (List.perm_insertionSort mergeLE _).map Article.link
  exact hperm.nodup_iff.2 (links_nodup_of_mapInv hinv)

theorem sorted_nodup_links_ext :
    ∀ (l1 l2 : List Article), List.Sorted mergeLE l1 → List.Sorted mergeLE l2 →
      (l1.map Article.link).Nodup → (l2.map Article.link).Nodup →
      (∀ x, x ∈ l1 ↔ x ∈ l2) → l1 = l2 := by
  intro l1
  induction l1 with
  | nil =>
    intro l2 _ _ _ _ hmem
    cases l2 with
    | nil => rfl
    | cons b t2 => exact absurd ((hmem b).2 (List.mem_cons_self _ _)) (List.not_mem_nil b)
  | cons a t1 ih =>
    intro l2 hs1 hs2 hn1 hn2 hmem
    cases l2 with
    | nil => exact absurd ((hmem a).1 (List.mem_cons_self _ _)) (List.not_mem_nil a)
    | cons b t2 =>
      simp only [List.map_cons, List.nodup_cons] at hn1 hn2
      by_cases hab : a = b
      · subst hab
        have htail : ∀ x, x ∈ t1 ↔ x ∈ t2 := by
          intro x
          constructor
          · intro hx
            rcases List.mem_cons.1 ((hmem x).1 (List.mem_cons_of_mem _ hx)) with rfl | h
            · exact absurd (List.mem_map_of_mem Article.link hx) hn1.1
            · exact h
          · intro hx
            rcases List.mem_cons.1 ((hmem x).2 (List.mem_cons_of_mem _ hx)) with rfl | h
            · exact absurd (List.mem_map_of_mem Article.link hx) hn2.1
            · exact h
        rw [ih t2 (List.Sorted.of_cons hs1) (List.Sorted.of_cons hs2) hn1.2 hn2.2 htail]
      · exfalso
        have hat2 : a ∈ t2 := by
          rcases List.mem_cons.1 ((hmem a).1 (List.mem_cons_self _ _)) with h | h
          · exact absurd h hab
          · exact h
        have hbt1 : b ∈ t1 := by
          rcases List.mem_cons.1 ((hmem b).2 (List.mem_cons_self _ _)) with h | h
          · exact absurd h.symm hab
          · exact h
        have h1 : mergeLE a b := List.rel_of_sorted_cons hs1 b hbt1
        have h2 : mergeLE b a := List.rel_of_sorted_cons hs2 a hat2
        have hlink := mergeLE_antisymm_link h1 h2
        exact hn1.1 (hlink ▸ List.mem_map_of_mem Article.link hbt1)

/-- C4: the merge output is sorted ascending by `publishedAtMs` with
missing timestamps last and ties broken by ascending `link` (so two items
with equal timestamps always appear in ascending identity order), its links
are pairwise distinct, and this order is total: any two merge outputs with
the same member set — whatever the input order — are the same sequence. -/
theorem mergeArticles_deterministic_order (dp : String → Option Int)
    (iso : Int → String) (existingArticles newItems : List Article) :
    List.Sorted mergeLE (mergeArticles dp iso existingArticles newItems).1
    ∧ ((mergeArticles dp iso existingArticles newItems).1.map Article.link).Nodup
    ∧ (∀ dp2 iso2 e2 c2,
        (∀ x, x ∈ (mergeArticles dp iso existingArticles newItems).1 ↔
          x ∈ (mergeArticles dp2 iso2 e2 c2).1) →
        (mergeArticles dp iso existingArticles newItems).1 =
          (mergeArticles dp2 iso2 e2 c2).1) :=
  ⟨mergeArticles_sorted dp iso existingArticles newItems,
   mergeArticles_links_nodup dp iso existingArticles newItems,
   fun dp2 iso2 e2 c2 hmem =>
     sorted_nodup_links_ext _ _
       (mergeArticles_sorted dp iso existingArticles newItems)
       (mergeArticles_sorted dp2 iso2 e2 c2)
       (mergeArticles_links_nodup dp iso existingArticles newItems)
       (mergeArticles_links_nodup dp2 iso2 e2 c2) hmem⟩

/-- Witness for C4: merging the same two candidates in either input order
yields the identical sorted sequence. -/
theorem mergeArticles_deterministic_order_witness :
    List.Sorted mergeLE (mergeArticles dpX isoX [] [artOld, artNew]).1
    ∧ ((mergeArticles dpX isoX [] [artOld, artNew]).1.map Article.link).Nodup
    ∧ (mergeArticles dpX isoX [] [artOld, artNew]).1 =
        (mergeArticles dpX isoX [] [artNew, artOld]).1 := by
  have h := mergeArticles_deterministic_order dpX isoX [] [artOld, artNew]
  have heq : (mergeArticles dpX isoX [] [artOld, artNew]).1 =
      (mergeArticles dpX isoX [] [artNew, artOld]).1 := by decide
  exact ⟨h.1, h.2.1, h.2.2 dpX isoX [] [artNew, artOld] (fun x => by rw [heq])⟩

/-! Merge update semantics (C3). -/

theorem mergeFieldRel_refl (items : List Article) (v : Article) :
    mergeFieldRel items v v :=
  ⟨rfl, rfl, rfl, Or.inl rfl, Or.inl rfl, Or.inl rfl, Or.inl rfl, Or.inl rfl,
    Or.inl rfl⟩

theorem mergeFieldRel_update {items : List Article} {v w : Article} (i : Article)
    (hi : i ∈ items) (hlink : i.link = w.link) (h : mergeFieldRel items v w) :
    mergeFieldRel items v (updateArticle w i) := by
  obtain ⟨hL, hS, hSA, hT, hD, hTh, hG, hP, hPM⟩ := h
  refine ⟨hL, hS, hSA, ?_, ?_, ?_, ?_, ?_, ?_⟩
  · by_cases hc : (strTruthy i.title && (i.title != w.title)) = true
    · have ht : strTruthy i.title = true := by
        have hc' := hc
        rw [Bool.and_eq_true] at hc'
        exact hc'.1
      by_cases hv : i.title = v.title
      · left
        simp only [updateArticle, hc, if_true]
        exact hv
      · right
        exact ⟨i, hi, hlink, ht, hv, by simp only [updateArticle, hc, if_true]⟩
    · have : (updateArticle w i).title = w.title := by
        simp only [updateArticle]
        rw [if_neg hc]
      rw [this]
      exact hT
  · by_cases hc : (strTruthy i.description && (i.description != w.description)) = true
    · have ht : strTruthy i.description = true := by
        have hc' := hc
        rw [Bool.and_eq_true] at hc'
        exact hc'.1
      by_cases hv : i.description = v.description
      · left
        simp only [updateArticle, hc, if_true]
        exact hv
      · right
        exact ⟨i, hi, hlink, ht, hv, by simp only [updateArticle, hc, if_true]⟩
    · have : (updateArticle w i).description = w.description := by
        simp only [updateArticle]
        rw [if_neg hc]
      rw [this]
      exact hD
  · by_cases hc : (ostrTruthy i.thumbnail && (i.thumbnail != w.thumbnail)) = true
    · have ht : ostrTruthy i.thumbnail = true := by
        have hc' := hc
        rw [Bool.and_eq_true] at hc'
        exact hc'.1
      by_cases hv : i.thumbnail = v.thumbnail
      · left
        simp only [updateArticle, hc, if_true]
        exact hv
      · right
        exact ⟨i, hi, hlink, ht, hv, by simp only [updateArticle, hc, if_true]⟩
    · have : (updateArticle w i).thumbnail = w.thumbnail := by
        simp only [updateArticle]
        rw [if_neg hc]
      rw [this]
      exact hTh
  · by_cases hc : (ostrTruthy i.guid && (i.guid != w.guid)) = true
    · have ht : ostrTruthy i.guid = true := by
        have hc' := hc
        rw [Bool.and_eq_true] at hc'
        exact hc'.1
      by_cases hv : i.guid = v.guid
      · left
        simp only [updateArticle, hc, if_true]
        exact hv
      · right
        exact ⟨i, hi, hlink, ht, hv, by simp only [updateArticle, hc, if_true]⟩
    · have : (updateArticle w i).guid = w.guid := by
        simp only [updateArticle]
        rw [if_neg hc]
      rw [this]
      exact hG
  · by_cases hc : (ostrTruthy i.publishedAt && (i.publishedAt != w.publishedAt)) = true
    · have ht : ostrTruthy i.publishedAt = true := by
        have hc' := hc
        rw [Bool.and_eq_true] at hc'
        exact hc'.1
      by_cases hv : i.publishedAt = v.publishedAt
      · left
        simp only [updateArticle, hc, if_true]
        exact hv
      · right
        exact ⟨i, hi, hlink, ht, hv, by simp only [updateArticle, hc, if_true]⟩
    · have h1 : (updateArticle w i).publishedAt = w.publishedAt := by
        simp only [updateArticle]
        rw [if_neg hc]
      rw [h1]
      exact hP
  · by_cases hc : (ostrTruthy i.publishedAt && (i.publishedAt != w.publishedAt)) = true
    · have ht : ostrTruthy i.publishedAt = true := by
        have hc' := hc
        rw [Bool.and_eq_true] at hc'
        exact hc'.1
      right
      exact ⟨i, hi, hlink, ht, by simp only [updateArticle, hc, if_true]⟩
    · have h2 : (updateArticle w i).publishedAtMs = w.publishedAtMs := by
        simp only [updateArticle]
        rw [if_neg hc]
      rw [h2]
      exact hPM

theorem mergeStep_map_of_flag_false {m : List (String × Article)} {i : Article}
    (h : (mergeStep m i).2 = false) : (mergeStep m i).1 = m := by
  by_cases hl : strTruthy i.link
  · cases hget : mapGet m i.link with
    | none => simp [mergeStep, hl, hget] at h
    | some e =>
      by_cases hup : articleUpdated e i
      · simp [mergeStep, hl, hget, hup] at h
      · simp [mergeStep, hl, hget, hup]
  · simp [mergeStep, hl]

theorem mergeStep_flag_iff {m : List (String × Article)} {i : Article} :
    (mergeStep m i).2 = true ↔
      (strTruthy i.link = true ∧
        match mapGet m i.link with
        | some e => articleUpdated e i = true
        | none => True) := by
  by_cases hl : strTruthy i.link
  · cases hget : mapGet m i.link with
    | none => simp [mergeStep, hl, hget]
    | some e =>
      by_cases hup : articleUpdated e i
      · simp [mergeStep, hl, hget, hup]
      · simp [mergeStep, hl, hget, hup]
  · simp [mergeStep, hl]

theorem mergeFold_flag_iff :
    ∀ (items : List Article) (m : List (String × Article)),
      (mergeFold m items).2 = true ↔
        ∃ i ∈ items, strTruthy i.link = true ∧
          match mapGet m i.link with
          | some e => articleUpdated e i = true
          | none => True := by
  intro items
  induction items with
  | nil => intro m; simp [mergeFold]
  | cons i rest ih =>
    intro m
    by_cases hq : (mergeStep m i).2 = true
    · simp only [mergeFold, hq, Bool.true_or]
      constructor
      · intro _
        exact ⟨i, List.mem_cons_self _ _, mergeStep_flag_iff.1 hq⟩
      · intro _
        trivial
    · have hqf : (mergeStep m i).2 = false := Bool.eq_false_iff.2 hq
      have hmap := mergeStep_map_of_flag_false hqf
      simp only [mergeFold, hqf, Bool.false_or, hmap]
      rw [ih m]
      constructor
      · rintro ⟨j, hj, hc⟩
        exact ⟨j, List.mem_cons_of_mem _ hj, hc⟩
      · rintro ⟨j, hj, hc⟩
        rcases List.mem_cons.1 hj with rfl | hj'
        · exact absurd (mergeStep_flag_iff.2 hc) hq
        · exact ⟨j, hj', hc⟩

theorem mergeFold_rel (S : List Article) :
    ∀ (items : List Article), (∀ i ∈ items, i ∈ S) →
    ∀ (m0 m : List (String × Article)), MapInv m →
      (∀ k v, mapGet m0 k = some v → ∃ w, mapGet m k = some w ∧ mergeFieldRel S v w) →
      ∀ k v, mapGet m0 k = some v →
        ∃ w, mapGet (mergeFold m items).1 k = some w ∧ mergeFieldRel S v w := by
  intro items
  induction items with
  | nil =>
    intro _ m0 m _ hbase k v hv
    simpa [mergeFold] using hbase k v hv
  | cons i rest ih =>
    intro hS m0 m hm hbase k v hv
    have hstep : ∀ k' v', mapGet m0 k' = some v' →
        ∃ w, mapGet (mergeStep m i).1 k' = some w ∧ mergeFieldRel S v' w := by
      intro k' v' hv'
      obtain ⟨w, hw, hrel⟩ := hbase k' v' hv'
      by_cases hl : strTruthy i.link
      · cases hget : mapGet m i.link with
        | none =>
          have hne : k' ≠ i.link := by
            intro he
            rw [he, hget] at hw
            exact Option.noConfusion hw
          refine ⟨w, ?_, hrel⟩
          simp only [mergeStep, hl, if_true, hget]
          rw [mapGet_mapSet_ne _ _ hne]
          exact hw
        | some e =>
          by_cases hup : articleUpdated e i
          · by_cases hk : k' = i.link
            · subst hk
              have hwe : w = e := by
                rw [hw] at hget
                exact Option.some.inj hget
              have hwl : w.link = i.link := (hm.2 _ (mapGet_mem hw)).1
              refine ⟨updateArticle w i, ?_, ?_⟩
              · simp only [mergeStep, hl, if_true, hget, hup, if_true]
                rw [hwe]
                exact mapGet_mapSet_self m i.link (updateArticle e i)
              · exact mergeFieldRel_update i (hS i (List.mem_cons_self _ _))
                  hwl.symm hrel
            · refine ⟨w, ?_, hrel⟩
              simp only [mergeStep, hl, if_true, hget, hup, if_true]
              rw [mapGet_mapSet_ne _ _ hk]
              exact hw
          · refine ⟨w, ?_, hrel⟩
            simpa [mergeStep, hl, hget, hup] using hw
      · refine ⟨w, ?_, hrel⟩
        simpa [mergeStep, hl] using hw
    simpa [mergeFold] using
      ih (fun j hj => hS j (List.mem_cons_of_mem _ hj)) m0 _
        (mapInv_mergeStep i hm) hstep k v hv

theorem mergeSeedLoop_append (dp : String → Option Int) (iso : Int → String) :
    ∀ (l1 l2 : List Article) (m : List (String × Article)),
      mergeSeedLoop dp iso m (l1 ++ l2) =
        mergeSeedLoop dp iso (mergeSeedLoop dp iso m l1) l2 := by
  intro l1
  induction l1 with
  | nil => intro l2 m; rfl
  | cons a rest ih => intro l2 m; simp [mergeSeedLoop, ih]

theorem mergeSeedLoop_get_ne (dp : String → Option Int) (iso : Int → String) :
    ∀ (l : List Article) (m : List (String × Article)) (k : String),
      (∀ j ∈ l, strTruthy j.link = true → j.link ≠ k) →
      mapGet (mergeSeedLoop dp iso m l) k = mapGet m k := by
  intro l
  induction l with
  | nil => intro m k _; rfl
  | cons a rest ih =>
    intro m k h
    simp only [mergeSeedLoop]
    rw [ih _ k (fun j hj => h j (List.mem_cons_of_mem _ hj))]
    by_cases hl : strTruthy a.link
    · rw [if_pos hl]
      exact mapGet_mapSet_ne _ _ (Ne.symm (h a (List.mem_cons_self _ _) hl))
    · rw [if_neg hl]

theorem mergeSeed_get (dp : String → Option Int) (iso : Int → String)
    (existingArticles : List Article)
    (hndE : List.Pairwise
      (fun x y => strTruthy x.link = true → strTruthy y.link = true →
        x.link ≠ y.link) existingArticles) :
    ∀ a ∈ existingArticles, strTruthy a.link = true →
      mapGet (mergeSeed dp iso existingArticles) a.link =
        some (normalizeArticle dp iso a) := by
  intro a ha hl
  obtain ⟨pre, post, rfl⟩ := List.append_of_mem ha
  rw [List.pairwise_append] at hndE
  have hpost : ∀ j ∈ post, strTruthy j.link = true → j.link ≠ a.link := by
    intro j hj hjl
    exact fun he => (List.pairwise_cons.1 hndE.2.1).1 j hj hl hjl he.symm
  unfold mergeSeed
  rw [mergeSeedLoop_append]
  have : mergeSeedLoop dp iso (mergeSeedLoop dp iso [] pre) (a :: post) =
      mergeSeedLoop dp iso
        (mapSet (mergeSeedLoop dp iso [] pre) a.link (normalizeArticle dp iso a))
        post := by
    simp [mergeSeedLoop, hl]
  rw [this, mergeSeedLoop_get_ne dp iso post _ a.link hpost, mapGet_mapSet_self]

theorem normalizeArticle_sentAt (dp : String → Option Int) (iso : Int → String)
    (a : Article) (h : a.sentAt ≠ some "") :
    (normalizeArticle dp iso a).sentAt = a.sentAt := by
  cases hsa : a.sentAt with
  | none => simp [normalizeArticle, jsOrStr, ostrTruthy, hsa]
  | some s =>
    have hs : s ≠ "" := fun he => h (he ▸ hsa)
    simp [normalizeArticle, jsOrStr, ostrTruthy, strTruthy, hsa, hs]

/-- C3: re-observation semantics of `mergeArticles`.  Every existing
article with a truthy link is seeded into the map as its normalization,
which keeps its `sent` and `sentAt`; every output article descended from a
seeded article keeps that article's `link`, `sent` and `sentAt` exactly,
and each of title/description/thumbnail/guid/publishedAt either keeps the
stored value or takes the truthy, materially differing value of a
same-link candidate; and the `changed` flag is true iff some candidate was
inserted under a fresh link or materially updated a stored field — pure
re-observation of identical values leaves it false. -/
theorem mergeArticles_update_semantics (dp : String → Option Int)
    (iso : Int → String) (existingArticles newItems : List Article)
    (hndE : List.Pairwise
      (fun x y => strTruthy x.link = true → strTruthy y.link = true →
        x.link ≠ y.link) existingArticles)
    (hwf : ∀ a ∈ existingArticles, a.sentAt ≠ some "") :
    (∀ a ∈ existingArticles, strTruthy a.link = true →
      mapGet (mergeSeed dp iso existingArticles) a.link =
        some (normalizeArticle dp iso a)
      ∧ (normalizeArticle dp iso a).sent = a.sent
      ∧ (normalizeArticle dp iso a).sentAt = a.sentAt)
    ∧ (∀ r ∈ (mergeArticles dp iso existingArticles newItems).1,
        ∀ v, mapGet (mergeSeed dp iso existingArticles) r.link = some v →
          mergeFieldRel newItems v r)
    ∧ ((mergeArticles dp iso existingArticles newItems).2 = true ↔
        ∃ i ∈ newItems, strTruthy i.link = true ∧
          match mapGet (mergeSeed dp iso existingArticles) i.link with
          | some e => articleUpdated e i = true
          | none => True) := by
  refine ⟨fun a ha hl => ⟨mergeSeed_get dp iso existingArticles hndE a ha hl, rfl,
      normalizeArticle_sentAt dp iso a (hwf a ha)⟩, ?_, ?_⟩
  · intro r hr v hv
    have hinvM1 : MapInv (mergeFold (mergeSeed dp iso existingArticles) newItems).1 :=
      mapInv_mergeFold newItems _ (mapInv_mergeSeed dp iso existingArticles)
    have hrv : r ∈ ((mergeFold (mergeSeed dp iso existingArticles) newItems).1.map (·.2)) := by
      have hperm := List.perm_insertionSort mergeLE
        ((mergeFold (mergeSeed dp iso existingArticles) newItems).1.map (·.2))
      exact hperm.mem_iff.1 hr
    obtain ⟨p, hp, hp2⟩ := List.mem_map.1 hrv
    have hpk : p.2.link = p.1 := (hinvM1.2 p hp).1
    have hget1 : mapGet (mergeFold (mergeSeed dp iso existingArticles) newItems).1
        r.link = some r := by
      have : (r.link, r) ∈ (mergeFold (mergeSeed dp iso existingArticles) newItems).1 := by
        have : p = (r.link, r) := by
          rcases p with ⟨pk, pv⟩
          simp only at hp2
          subst hp2
          simp only [Prod.mk.injEq]
          exact ⟨hpk.symm, trivial⟩
        exact this ▸ hp
      exact mem_mapGet hinvM1.1 this
    obtain ⟨w, hw, hrel⟩ :=
      mergeFold_rel newItems newItems (fun i hi => hi)
        (mergeSeed dp iso existingArticles) (mergeSeed dp iso existingArticles)
        (mapInv_mergeSeed dp iso existingArticles)
        (fun k v hv => ⟨v, hv, mergeFieldRel_refl newItems v⟩) r.link v hv
    rw [hget1] at hw
    exact (Option.some.inj hw) ▸ hrel
  · exact mergeFold_flag_iff newItems (mergeSeed dp iso existingArticles)

/-- Witness for C3: a delivered stored article re-observed with identical
field values keeps `sent`/`sentAt` and leaves `changed` false. -/
theorem mergeArticles_update_semantics_witness :
    (∀ a ∈ [artSent], strTruthy a.link = true →
      mapGet (mergeSeed dpX isoX [artSent]) a.link =
        some (normalizeArticle dpX isoX a)
      ∧ (normalizeArticle dpX isoX a).sent = a.sent
      ∧ (normalizeArticle dpX isoX a).sentAt = a.sentAt)
    ∧ (∀ r ∈ (mergeArticles dpX isoX [artSent] [artOld]).1,
        ∀ v, mapGet (mergeSeed dpX isoX [artSent]) r.link = some v →
          mergeFieldRel [artOld] v r)
    ∧ ((mergeArticles dpX isoX [artSent] [artOld]).2 = true ↔
        ∃ i ∈ [artOld], strTruthy i.link = true ∧
          match mapGet (mergeSeed dpX isoX [artSent]) i.link with
          | some e => articleUpdated e i = true
          | none => True) :=
  mergeArticles_update_semantics dpX isoX [artSent] [artOld]
    (by simp) (by decide)

/-! Merge idempotence (C2). -/

theorem jsOrStr_none_idem (x : Option String) :
    jsOrStr (jsOrStr x none) none = jsOrStr x none := by
  cases x with
  | none => rfl
  | some s =>
    by_cases hs : s = ""
    · simp [jsOrStr, ostrTruthy, strTruthy, hs]
    · simp [jsOrStr, ostrTruthy, strTruthy, hs]

theorem normalizeArticle_idem (dp : String → Option Int) (iso : Int → String)
    (a : Article) :
    normalizeArticle dp iso (normalizeArticle dp iso a) = normalizeArticle dp iso a := by
  rcases a with ⟨lk, ti, de, th, gu, pa, pm, se, sa⟩
  simp only [normalizeArticle]
  apply Article.ext <;> try rfl
  case sentAt => exact jsOrStr_none_idem sa
  case publishedAt =>
    cases pa with
    | some s =>
      by_cases hs : s = ""
      · subst hs
        cases pm with
        | none => simp [jsOrStr, ostrTruthy, strTruthy]
        | some t =>
          by_cases ht : t = 0
          · subst ht
            simp [jsOrStr, ostrTruthy, strTruthy]
          · by_cases hi : iso t = ""
            · simp [jsOrStr, ostrTruthy, strTruthy, ht, hi]
            · simp [jsOrStr, ostrTruthy, strTruthy, ht, hi]
      · simp [jsOrStr, ostrTruthy, strTruthy, hs]
    | none =>
      cases pm with
      | none => simp [jsOrStr, ostrTruthy, strTruthy]
      | some t =>
        by_cases ht : t = 0
        · subst ht
          simp [jsOrStr, ostrTruthy, strTruthy]
        · by_cases hi : iso t = ""
          · simp [jsOrStr, ostrTruthy, strTruthy, ht, hi]
          · simp [jsOrStr, ostrTruthy, strTruthy, ht, hi]
  case publishedAtMs =>
    cases pm with
    | some t => rfl
    | none =>
      cases pa with
      | none => rfl
      | some s =>
        by_cases hs : s = ""
        · subst hs
          simp [jsOrStr, ostrTruthy, strTruthy]
        · cases hdp : dp s with
          | some u => simp [jsOrStr, ostrTruthy, strTruthy, hs, hdp]
          | none => simp [jsOrStr, ostrTruthy, strTruthy, hs, hdp]

theorem insertArticle_stable (dp : String → Option Int) (iso : Int → String)
    (i : Article) (h1 : ostrTruthy i.publishedAt = true)
    (h2 : i.publishedAtMs.isSome = true) :
    normalizeArticle dp iso (insertArticle i) = insertArticle i := by
  obtain ⟨t, ht⟩ := Option.isSome_iff_exists.1 h2
  obtain ⟨s, hs⟩ : ∃ s, i.publishedAt = some s := by
    cases hpa : i.publishedAt with
    | none => rw [hpa] at h1; exact absurd h1 (by simp [ostrTruthy])
    | some s => exact ⟨s, rfl⟩
  have hstruthy : strTruthy s = true := by
    rw [hs] at h1
    simpa [ostrTruthy] using h1
  simp only [normalizeArticle, insertArticle]
  apply Article.ext <;> try rfl
  case publishedAt => simp [jsOrStr, ostrTruthy, hs, hstruthy]
  case publishedAtMs => simp [hs, ht]

theorem updateArticle_stable (dp : String → Option Int) (iso : Int → String)
    (w i : Article) (hw : normalizeArticle dp iso w = w)
    (h1 : ostrTruthy i.publishedAt = true) (h2 : i.publishedAtMs.isSome = true) :
    normalizeArticle dp iso (updateArticle w i) = updateArticle w i := by
  have hwSA : jsOrStr w.sentAt none = w.sentAt := congrArg Article.sentAt hw
  have hwPA : jsOrStr w.publishedAt
      (match w.publishedAtMs with
       | some t => if t ≠ 0 then some (iso t) else none
       | none => none) = w.publishedAt := congrArg Article.publishedAt hw
  have hwPM : (match w.publishedAtMs with
      | some t => some t
      | none =>
        match w.publishedAt with
        | some s => if strTruthy s then dp s else none
        | none => none) = w.publishedAtMs := by
    have := congrArg Article.publishedAtMs hw
    simpa [normalizeArticle] using this
  obtain ⟨t, ht⟩ := Option.isSome_iff_exists.1 h2
  obtain ⟨s, hs⟩ : ∃ s, i.publishedAt = some s := by
    cases hpa : i.publishedAt with
    | none => rw [hpa] at h1; exact absurd h1 (by simp [ostrTruthy])
    | some s => exact ⟨s, rfl⟩
  have hstruthy : strTruthy s = true := by
    rw [hs] at h1
    simpa [ostrTruthy] using h1
  by_cases hc : (ostrTruthy i.publishedAt && (i.publishedAt != w.publishedAt)) = true
  · have hPA : (updateArticle w i).publishedAt = i.publishedAt := by
      simp only [updateArticle]
      rw [if_pos hc]
    have hPM : (updateArticle w i).publishedAtMs = i.publishedAtMs := by
      simp only [updateArticle]
      rw [if_pos hc]
    simp only [normalizeArticle]
    apply Article.ext <;> try rfl
    · rw [hPA, hs]
      simp [jsOrStr, ostrTruthy, hstruthy]
    · rw [hPM, hPA, ht]
    · have hus : (updateArticle w i).sentAt = w.sentAt := rfl
      rw [hus, hwSA]
  · have hPA : (updateArticle w i).publishedAt = w.publishedAt := by
      simp only [updateArticle]
      rw [if_neg hc]
    have hPM : (updateArticle w i).publishedAtMs = w.publishedAtMs := by
      simp only [updateArticle]
      rw [if_neg hc]
    simp only [normalizeArticle]
    apply Article.ext <;> try rfl
    · rw [hPA, hPM]
      exact hwPA
    · rw [hPM, hPA]
      exact hwPM
    · have hus : (updateArticle w i).sentAt = w.sentAt := rfl
      rw [hus, hwSA]

theorem mergeSeedLoop_stable (dp : String → Option Int) (iso : Int → String) :
    ∀ (l : List Article) (m : List (String × Article)),
      (∀ p ∈ m, normalizeArticle dp iso p.2 = p.2) →
      ∀ p ∈ mergeSeedLoop dp iso m l, normalizeArticle dp iso p.2 = p.2 := by
  intro l
  induction l with
  | nil => intro m h; simpa [mergeSeedLoop] using h
  | cons a rest ih =>
    intro m h
    simp only [mergeSeedLoop]
    by_cases hl : strTruthy a.link
    · rw [if_pos hl]
      refine ih _ (fun p hp => ?_)
      rcases mem_mapSet hp with rfl | hp'
      · exact normalizeArticle_idem dp iso a
      · exact h p hp'
    · rw [if_neg hl]
      exact ih m h

theorem mergeFold_stable (dp : String → Option Int) (iso : Int → String) :
    ∀ (items : List Article) (m : List (String × Article)),
      (∀ i ∈ items, strTruthy i.link = true →
        ostrTruthy i.publishedAt = true ∧ i.publishedAtMs.isSome = true) →
      (∀ p ∈ m, normalizeArticle dp iso p.2 = p.2) →
      ∀ p ∈ (mergeFold m items).1, normalizeArticle dp iso p.2 = p.2 := by
  intro items
  induction items with
  | nil => intro m _ h; simpa [mergeFold] using h
  | cons i rest ih =>
    intro m hco h
    simp only [mergeFold]
    refine ih _ (fun j hj => hco j (List.mem_cons_of_mem _ hj)) (fun p hp => ?_)
    by_cases hl : strTruthy i.link
    · obtain ⟨h1, h2⟩ := hco i (List.mem_cons_self _ _) hl
      cases hget : mapGet m i.link with
      | none =>
        rw [mergeStep, if_pos hl, hget] at hp
        rcases mem_mapSet hp with rfl | hp'
        · exact insertArticle_stable dp iso i h1 h2
        · exact h p hp'
      | some e =>
        by_cases hup : articleUpdated e i
        · rw [mergeStep, if_pos hl, hget] at hp
          simp only [hup, if_true] at hp
          rcases mem_mapSet hp with rfl | hp'
          · exact updateArticle_stable dp iso e i (h _ (mapGet_mem hget)) h1 h2
          · exact h p hp'
        · rw [mergeStep, if_pos hl, hget] at hp
          simp only [hup, Bool.false_eq_true, if_false] at hp
          exact h p hp
    · rw [mergeStep, if_neg hl] at hp
      exact h p hp

theorem mapSet_fresh_append {β : Type} :
    ∀ (m : List (String × β)) (k : String) (v : β),
      (∀ p ∈ m, p.1 ≠ k) → mapSet m k v = m ++ [(k, v)] := by
  intro m
  induction m with
  | nil => intro k v _; rfl
  | cons p rest ih =>
    intro k v h
    have hp : p.1 ≠ k := h p (List.mem_cons_self _ _)
    simp only [mapSet, if_neg hp, List.cons_append]
    rw [ih k v (fun q hq => h q (List.mem_cons_of_mem _ hq))]

theorem mergeSeedLoop_of_stable (dp : String → Option Int) (iso : Int → String) :
    ∀ (l : List Article) (m : List (String × Article)),
      (∀ a ∈ l, strTruthy a.link = true) →
      (∀ a ∈ l, normalizeArticle dp iso a = a) →
      (m.map Prod.fst ++ l.map Article.link).Nodup →
      mergeSeedLoop dp iso m l = m ++ l.map (fun a => (a.link, a)) := by
  intro l
  induction l with
  | nil => intro m _ _ _; simp [mergeSeedLoop]
  | cons a rest ih =>
    intro m hT hS hN
    have hl : strTruthy a.link = true := hT a (List.mem_cons_self _ _)
    have hfresh : ∀ p ∈ m, p.1 ≠ a.link := by
      intro p hp he
      have h1 : a.link ∈ m.map Prod.fst := he ▸ List.mem_map_of_mem Prod.fst hp
      have h2 : a.link ∈ (a :: rest).map Article.link :=
        List.mem_map_of_mem Article.link (List.mem_cons_self _ _)
      exact (List.disjoint_of_nodup_append hN) h1 h2
    simp only [mergeSeedLoop, if_pos hl]
    rw [hS a (List.mem_cons_self _ _), mapSet_fresh_append m a.link a hfresh]
    rw [ih (m ++ [(a.link, a)]) (fun x hx => hT x (List.mem_cons_of_mem _ hx))
      (fun x hx => hS x (List.mem_cons_of_mem _ hx)) ?_]
    · simp
    · have : (m ++ [(a.link, a)]).map Prod.fst ++ rest.map Article.link =
          m.map Prod.fst ++ (a :: rest).map Article.link := by
        simp
      rw [this]
      exact hN

theorem mapGet_eq_of_some_iff {β : Type} {m1 m2 : List (String × β)} {k : String}
    (h : ∀ v, mapGet m1 k = some v ↔ mapGet m2 k = some v) :
    mapGet m1 k = mapGet m2 k := by
  cases h1 : mapGet m1 k with
  | some v => exact ((h v).1 h1).symm
  | none =>
    cases h2 : mapGet m2 k with
    | some v =>
      have hx := (h v).2 h2
      rw [h1] at hx
      exact Option.noConfusion hx
    | none => rfl

theorem mergeFold_fst_append :
    ∀ (l1 l2 : List Article) (m : List (String × Article)),
      (mergeFold m (l1 ++ l2)).1 = (mergeFold (mergeFold m l1).1 l2).1 := by
  intro l1
  induction l1 with
  | nil => intro l2 m; simp [mergeFold]
  | cons i rest ih => intro l2 m; simp [mergeFold, ih]

theorem mergeStep_get_ne {m : List (String × Article)} {i : Article} {k : String}
    (h : strTruthy i.link = true → i.link ≠ k) :
    mapGet (mergeStep m i).1 k = mapGet m k := by
  by_cases hl : strTruthy i.link
  · have hne : k ≠ i.link := Ne.symm (h hl)
    cases hget : mapGet m i.link with
    | none =>
      simp only [mergeStep, if_pos hl, hget]
      exact mapGet_mapSet_ne _ _ hne
    | some e =>
      by_cases hup : articleUpdated e i
      · simp only [mergeStep, if_pos hl, hget, hup, if_true]
        exact mapGet_mapSet_ne _ _ hne
      · simp [mergeStep, hl, hget, hup]
  · simp [mergeStep, hl]

theorem mergeFold_get_ne :
    ∀ (items : List Article) (m : List (String × Article)) (k : String),
      (∀ j ∈ items, strTruthy j.link = true → j.link ≠ k) →
      mapGet (mergeFold m items).1 k = mapGet m k := by
  intro items
  induction items with
  | nil => intro m k _; rfl
  | cons i rest ih =>
    intro m k h
    simp only [mergeFold]
    rw [ih _ k (fun j hj => h j (List.mem_cons_of_mem _ hj))]
    exact mergeStep_get_ne (h i (List.mem_cons_self _ _))

theorem mergeStep_get_self {m : List (String × Article)} {i : Article}
    (hl : strTruthy i.link = true) :
    mapGet (mergeStep m i).1 i.link =
      some (match mapGet m i.link with
            | some e => if articleUpdated e i then updateArticle e i else e
            | none => insertArticle i) := by
  cases hget : mapGet m i.link with
  | none =>
    simp only [mergeStep, if_pos hl, hget]
    exact mapGet_mapSet_self m i.link (insertArticle i)
  | some e =>
    by_cases hup : articleUpdated e i
    · simp only [mergeStep, if_pos hl, hget, hup, if_true]
      exact mapGet_mapSet_self m i.link (updateArticle e i)
    · simp [mergeStep, hl, hget, hup]

theorem mergeFold_get_at (m : List (String × Article)) (pre post : List Article)
    (i : Article) (hl : strTruthy i.link = true)
    (hpre : ∀ j ∈ pre, strTruthy j.link = true → j.link ≠ i.link)
    (hpost : ∀ j ∈ post, strTruthy j.link = true → j.link ≠ i.link) :
    mapGet (mergeFold m (pre ++ i :: post)).1 i.link =
      some (match mapGet m i.link with
            | some e => if articleUpdated e i then updateArticle e i else e
            | none => insertArticle i) := by
  rw [mergeFold_fst_append]
  have hcons : (mergeFold (mergeFold m pre).1 (i :: post)).1 =
      (mergeFold (mergeStep (mergeFold m pre).1 i).1 post).1 := by
    simp [mergeFold]
  rw [hcons, mergeFold_get_ne post _ i.link hpost, mergeStep_get_self hl,
    mergeFold_get_ne pre m i.link hpre]

theorem articleUpdated_update_false (e i : Article) :
    articleUpdated (updateArticle e i) i = false := by
  have h1 : (strTruthy i.title && (i.title != (updateArticle e i).title)) = false := by
    by_cases hc : (strTruthy i.title && (i.title != e.title)) = true
    · have hf : (updateArticle e i).title = i.title := by
        simp only [updateArticle]
        rw [if_pos hc]
      rw [hf]
      simp
    · have hf : (updateArticle e i).title = e.title := by
        simp only [updateArticle]
        rw [if_neg hc]
      rw [hf]
      exact Bool.eq_false_iff.2 hc
  have h2 : (strTruthy i.description &&
      (i.description != (updateArticle e i).description)) = false := by
    by_cases hc : (strTruthy i.description && (i.description != e.description)) = true
    · have hf : (updateArticle e i).description = i.description := by
        simp only [updateArticle]
        rw [if_pos hc]
      rw [hf]
      simp
    · have hf : (updateArticle e i).description = e.description := by
        simp only [updateArticle]
        rw [if_neg hc]
      rw [hf]
      exact Bool.eq_false_iff.2 hc
  have h3 : (ostrTruthy i.thumbnail &&
      (i.thumbnail != (updateArticle e i).thumbnail)) = false := by
    by_cases hc : (ostrTruthy i.thumbnail && (i.thumbnail != e.thumbnail)) = true
    · have hf : (updateArticle e i).thumbnail = i.thumbnail := by
        simp only [updateArticle]
        rw [if_pos hc]
      rw [hf]
      simp
    · have hf : (updateArticle e i).thumbnail = e.thumbnail := by
        simp only [updateArticle]
        rw [if_neg hc]
      rw [hf]
      exact Bool.eq_false_iff.2 hc
  have h4 : (ostrTruthy i.guid && (i.guid != (updateArticle e i).guid)) = false := by
    by_cases hc : (ostrTruthy i.guid && (i.guid != e.guid)) = true
    · have hf : (updateArticle e i).guid = i.guid := by
        simp only [updateArticle]
        rw [if_pos hc]
      rw [hf]
      simp
    · have hf : (updateArticle e i).guid = e.guid := by
        simp only [updateArticle]
        rw [if_neg hc]
      rw [hf]
      exact Bool.eq_false_iff.2 hc
  have h5 : (ostrTruthy i.publishedAt &&
      (i.publishedAt != (updateArticle e i).publishedAt)) = false := by
    by_cases hc : (ostrTruthy i.publishedAt && (i.publishedAt != e.publishedAt)) = true
    · have hf : (updateArticle e i).publishedAt = i.publishedAt := by
        simp only [updateArticle]
        rw [if_pos hc]
      rw [hf]
      simp
    · have hf : (updateArticle e i).publishedAt = e.publishedAt := by
        simp only [updateArticle]
        rw [if_neg hc]
      rw [hf]
      exact Bool.eq_false_iff.2 hc
  simp only [articleUpdated, h1, h2, h3, h4, h5, Bool.or_self, Bool.or_false]

theorem articleUpdated_insert_false (i : Article) :
    articleUpdated (insertArticle i) i = false := by
  have hg : (ostrTruthy i.guid && (i.guid != (insertArticle i).guid)) = false := by
    by_cases hc : ostrTruthy i.guid = true
    · have hf : (insertArticle i).guid = i.guid := by
        simp [insertArticle, jsOrStr, hc]
      rw [hf]
      simp
    · simp [Bool.eq_false_iff.2 hc]
  have h1 : (strTruthy i.title && (i.title != (insertArticle i).title)) = false := by
    have hf : (insertArticle i).title = i.title := rfl
    rw [hf]
    simp
  have h2 : (strTruthy i.description &&
      (i.description != (insertArticle i).description)) = false := by
    have hf : (insertArticle i).description = i.description := rfl
    rw [hf]
    simp
  have h3 : (ostrTruthy i.thumbnail &&
      (i.thumbnail != (insertArticle i).thumbnail)) = false := by
    have hf : (insertArticle i).thumbnail = i.thumbnail := rfl
    rw [hf]
    simp
  have h5 : (ostrTruthy i.publishedAt &&
      (i.publishedAt != (insertArticle i).publishedAt)) = false := by
    have hf : (insertArticle i).publishedAt = i.publishedAt := rfl
    rw [hf]
    simp
  simp only [articleUpdated, h1, h2, h3, hg, h5, Bool.or_self, Bool.or_false]

theorem mergeFold_noop :
    ∀ (items : List Article) (m : List (String × Article)),
      (∀ i ∈ items, strTruthy i.link = true →
        ∃ w, mapGet m i.link = some w ∧ articleUpdated w i = false) →
      mergeFold m items = (m, false) := by
  intro items
  induction items with
  | nil => intro m _; rfl
  | cons i rest ih =>
    intro m h
    have hstep : mergeStep m i = (m, false) := by
      by_cases hl : strTruthy i.link
      · obtain ⟨w, hw, hwu⟩ := h i (List.mem_cons_self _ _) hl
        simp [mergeStep, hl, hw, hwu]
      · simp [mergeStep, hl]
    simp [mergeFold, hstep, ih m (fun j hj => h j (List.mem_cons_of_mem _ hj))]

/-- Counterexample to C2 as stated: merge is not idempotent over arbitrary
candidate lists.  Two candidates sharing one link with different titles make
the stored title flap between them, so the second identical call reports
`changed = true` again. -/
theorem mergeArticles_not_idempotent :
    (mergeArticles dpX isoX
      (mergeArticles dpX isoX [] [candA, candB]).1 [candA, candB]).2 = true := by
  decide

/-- C2 (amended): merge is idempotent over candidate lists with pairwise
distinct truthy links whose timestamps are coherent (a truthy `publishedAt`
and a finite `publishedAtMs`, as `parseRSSItems` always produces):
re-merging the merged output with the same candidates changes nothing and
reports `changed = false`. -/
theorem mergeArticles_idempotent_amended (dp : String → Option Int)
    (iso : Int → String) (existingArticles newItems : List Article)
    (hnd : List.Pairwise
      (fun x y => strTruthy x.link = true → strTruthy y.link = true →
        x.link ≠ y.link) newItems)
    (hco : ∀ i ∈ newItems, strTruthy i.link = true →
      ostrTruthy i.publishedAt = true ∧ i.publishedAtMs.isSome = true) :
    mergeArticles dp iso (mergeArticles dp iso existingArticles newItems).1 newItems =
      ((mergeArticles dp iso existingArticles newItems).1, false) := by
  have hinv1 : MapInv (mergeFold (mergeSeed dp iso existingArticles) newItems).1 :=
    mapInv_mergeFold newItems _ (mapInv_mergeSeed dp iso existingArticles)
  have hstable1 : ∀ p ∈ (mergeFold (mergeSeed dp iso existingArticles) newItems).1,
      normalizeArticle dp iso p.2 = p.2 :=
    mergeFold_stable dp iso newItems _ hco
      (mergeSeedLoop_stable dp iso existingArticles [] (by simp))
  have hperm : List.Perm (mergeArticles dp iso existingArticles newItems).1
      ((mergeFold (mergeSeed dp iso existingArticles) newItems).1.map (·.2)) :=
    List.perm_insertionSort mergeLE _
  have houtT : ∀ a ∈ (mergeArticles dp iso existingArticles newItems).1,
      strTruthy a.link = true := by
    intro a ha
    obtain ⟨p, hp, hp2⟩ := List.mem_map.1 (hperm.mem_iff.1 ha)
    have hq := hinv1.2 p hp
    rw [← hp2, hq.1]
    simpa [strTruthy] using hq.2
  have houtS : ∀ a ∈ (mergeArticles dp iso existingArticles newItems).1,
      normalizeArticle dp iso a = a := by
    intro a ha
    obtain ⟨p, hp, hp2⟩ := List.mem_map.1 (hperm.mem_iff.1 ha)
    rw [← hp2]
    exact hstable1 p hp
  have houtN := mergeArticles_links_nodup dp iso existingArticles newItems
  have houtSorted := mergeArticles_sorted dp iso existingArticles newItems
  have hM2 : mergeSeed dp iso (mergeArticles dp iso existingArticles newItems).1 =
      (mergeArticles dp iso existingArticles newItems).1.map (fun a => (a.link, a)) := by
    have := mergeSeedLoop_of_stable dp iso
      (mergeArticles dp iso existingArticles newItems).1 [] houtT houtS
      (by simpa using houtN)
    simpa [mergeSeed] using this
  have hgetEq : ∀ k,
      mapGet (mergeSeed dp iso (mergeArticles dp iso existingArticles newItems).1) k =
        mapGet (mergeFold (mergeSeed dp iso existingArticles) newItems).1 k := by
    intro k
    apply mapGet_eq_of_some_iff
    intro v
    constructor
    · intro hv
      rw [hM2] at hv
      obtain ⟨a, ha, hae⟩ := List.mem_map.1 (mapGet_mem hv)
      have h1 : a.link = k := congrArg Prod.fst hae
      have h2 : a = v := congrArg Prod.snd hae
      subst h2
      obtain ⟨p, hp, hp2⟩ := List.mem_map.1 (hperm.mem_iff.1 ha)
      have hpk : p.1 = a.link := by
        rw [← hp2]
        exact ((hinv1.2 p hp).1).symm
      have hpe : p = (k, a) := by
        rcases p with ⟨p1, pv⟩
        simp only at hpk hp2
        rw [Prod.mk.injEq]
        exact ⟨by rw [hpk, h1], hp2⟩
      exact mem_mapGet hinv1.1 (hpe ▸ hp)
    · intro hv
      have hmem := mapGet_mem hv
      have hvlink : v.link = k := (hinv1.2 (k, v) hmem).1
      have hvout : v ∈ (mergeArticles dp iso existingArticles newItems).1 :=
        hperm.mem_iff.2 (List.mem_map_of_mem (·.2) hmem)
      rw [hM2]
      apply mem_mapGet
      · have hkeys :
            ((mergeArticles dp iso existingArticles newItems).1.map
              (fun a => (a.link, a))).map Prod.fst =
              (mergeArticles dp iso existingArticles newItems).1.map Article.link := by
          rw [List.map_map]
          rfl
        rw [hkeys]
        exact houtN
      · have hkv : (k, v) = (v.link, v) := by rw [hvlink]
        rw [hkv]
        exact List.mem_map_of_mem _ hvout
  have hnoop : ∀ i ∈ newItems, strTruthy i.link = true →
      ∃ w, mapGet (mergeSeed dp iso
          (mergeArticles dp iso existingArticles newItems).1) i.link = some w ∧
        articleUpdated w i = false := by
    intro i hi hl
    obtain ⟨pre, post, heq⟩ := List.append_of_mem hi
    have hnd' := hnd
    rw [heq, List.pairwise_append] at hnd'
    have hpre : ∀ j ∈ pre, strTruthy j.link = true → j.link ≠ i.link := by
      intro j hj hjl
      exact hnd'.2.2 j hj i (List.mem_cons_self _ _) hjl hl
    have hpost : ∀ j ∈ post, strTruthy j.link = true → j.link ≠ i.link := by
      intro j hj hjl he
      exact (List.pairwise_cons.1 hnd'.2.1).1 j hj hl hjl he.symm
    have hM1get := mergeFold_get_at (mergeSeed dp iso existingArticles) pre post i
      hl hpre hpost
    rw [← heq] at hM1get
    refine ⟨_, (hgetEq i.link).trans hM1get, ?_⟩
    cases hget : mapGet (mergeSeed dp iso existingArticles) i.link with
    | none =>
      simp only [hget]
      exact articleUpdated_insert_false i
    | some e =>
      simp only [hget]
      by_cases hup : articleUpdated e i
      · simp only [hup, if_true]
        exact articleUpdated_update_false e i
      · simp [hup]
  have hfold2 : mergeFold (mergeSeed dp iso
      (mergeArticles dp iso existingArticles newItems).1) newItems =
      (mergeSeed dp iso (mergeArticles dp iso existingArticles newItems).1, false) :=
    mergeFold_noop newItems _ hnoop
  have hunfold : mergeArticles dp iso
      (mergeArticles dp iso existingArticles newItems).1 newItems =
      (List.insertionSort mergeLE
        ((mergeFold (mergeSeed dp iso
          (mergeArticles dp iso existingArticles newItems).1) newItems).1.map (·.2)),
       (mergeFold (mergeSeed dp iso
          (mergeArticles dp iso existingArticles newItems).1) newItems).2) := rfl
  rw [hunfold, hfold2]
  have hvals : ((mergeSeed dp iso
      (mergeArticles dp iso existingArticles newItems).1).map (·.2)) =
      (mergeArticles dp iso existingArticles newItems).1 := by
    rw [hM2, List.map_map]
    exact List.map_id _
  rw [hvals, houtSorted.insertionSort_eq]

/-- Witness for C2 at a concrete coherent candidate: the second merge is a
no-op with `changed = false`. -/
theorem mergeArticles_idempotent_amended_witness :
    mergeArticles dpX isoX (mergeArticles dpX isoX [] [candA]).1 [candA] =
      ((mergeArticles dpX isoX [] [candA]).1, false) :=
  mergeArticles_idempotent_amended dpX isoX [] [candA] (by simp) (by decide)

end CFRSS
